import Mathlib

/-!
# Verification of the UBI image writer and extractor

A shallow embedding of `imagewrite.c` and `ubi-utils/deubinize.c`
(mtd-utils, Inteno public mirror).  Flash buffers and image files are
`List Nat` whose elements are byte values; multi-byte header fields are
stored big-endian exactly as on flash.  Constants whose definitions live
in the external kernel header `mtd/ubi-media.h` (not part of this
repository's sources) carry their Linux values.
-/

set_option maxRecDepth 100000

namespace MtdUtils

/-! ## Constants from `mtd/ubi-media.h` -/

def UBI_EC_HDR_MAGIC : Nat := 0x55424923

def UBI_VID_HDR_MAGIC : Nat := 0x55424921

def UBI_CRC32_INIT : Nat := 0xFFFFFFFF

def UBI_EC_HDR_SIZE : Nat := 64

def UBI_EC_HDR_SIZE_CRC : Nat := 60

def UBI_VID_HDR_SIZE : Nat := 64

def UBI_VID_HDR_SIZE_CRC : Nat := 60

def UBI_VTBL_RECORD_SIZE : Nat := 172

def UBI_VTBL_RECORD_SIZE_CRC : Nat := 168

def UBI_LAYOUT_VOLUME_ID : Nat := 0x7fffefff

def UBI_LAYOUT_VOLUME_EBS : Nat := 2

def UBI_MAX_VOLUMES : Nat := 128

def UBI_VOL_NAME_MAX : Nat := 127

def UBI_VERSION : Nat := 1

def UBI_VID_DYNAMIC : Nat := 1

/-- `UBI_LAYOUT_VOLUME_TYPE` is `UBI_VID_DYNAMIC`. -/
def UBI_LAYOUT_VOLUME_TYPE : Nat := 1

/-- `UBI_LAYOUT_VOLUME_COMPAT` is `UBI_COMPAT_REJECT`. -/
def UBI_LAYOUT_VOLUME_COMPAT : Nat := 5

/-! ## Byte-buffer primitives -/

/-- The `n` bytes of `l` starting at offset `o`. -/
def slice (l : List Nat) (o n : Nat) : List Nat := (l.drop o).take n

/-- Overwrite the bytes of `b` at offset `o` with `w` (a `memcpy` into a
buffer); callers only use it with `o + w.length ≤ b.length`. -/
def writeAt (b : List Nat) (o : Nat) (w : List Nat) : List Nat :=
  b.take o ++ w ++ b.drop (o + w.length)

/-- `cpu_to_be32`: big-endian byte encoding of a 32-bit value. -/
def encBe32 (n : Nat) : List Nat :=
  [n / 16777216 % 256, n / 65536 % 256, n / 256 % 256, n % 256]

/-- `cpu_to_be16`: big-endian byte encoding of a 16-bit value. -/
def encBe16 (n : Nat) : List Nat := [n / 256 % 256, n % 256]

/-- `be32_to_cpu` generalised: big-endian read of a byte list. -/
def decBe (l : List Nat) : Nat := l.foldl (fun a b => a * 256 + b) 0

/-! ## CRC-32 (`mtd_crc32`): reflected polynomial `0xEDB88320`,
bit-at-a-time form of the table in `crc32.c`. -/

def crcStep (c : Nat) : Nat :=
  if c % 2 = 1 then (c / 2) ^^^ 0xEDB88320 else c / 2

def crcByte (c b : Nat) : Nat := crcStep^[8] (c ^^^ (b % 256))

def mtd_crc32 (seed : Nat) (l : List Nat) : Nat := l.foldl crcByte seed

/-! ## UBI header encodings, as `eb_gen_data` lays them out in the block
buffer.  Each struct is zero-filled first, so unassigned fields are zero
bytes; the CRC over the first `*_SIZE_CRC` bytes is appended last. -/

/-- `struct ubi_ec_hdr` without its trailing `hdr_crc`: magic, version,
3 padding bytes, 64-bit `ec` = 0, `vid_hdr_offset` = `min_io_size`,
`data_offset` = `min_io_size * 2`, `image_seq`, 32 padding bytes. -/
def ecHdrBody (minIo seq : Nat) : List Nat :=
  encBe32 UBI_EC_HDR_MAGIC ++ [UBI_VERSION, 0, 0, 0] ++ List.replicate 8 0 ++
    encBe32 minIo ++ encBe32 (minIo * 2) ++ encBe32 seq ++ List.replicate 32 0

def ecHdrBytes (minIo seq : Nat) : List Nat :=
  ecHdrBody minIo seq ++ encBe32 (mtd_crc32 UBI_CRC32_INIT (ecHdrBody minIo seq))

/-- `struct ubi_vid_hdr` without its trailing `hdr_crc`: magic, version,
`vol_type`, `copy_flag` = 0, `compat`, `vol_id`, `lnum`, then 44 zero
bytes (padding, `data_size`, `used_ebs`, `data_pad`, `data_crc`,
padding, `sqnum`, padding). -/
def vidHdrBody (volType compat volId lnum : Nat) : List Nat :=
  encBe32 UBI_VID_HDR_MAGIC ++ [UBI_VERSION, volType, 0, compat] ++
    encBe32 volId ++ encBe32 lnum ++ List.replicate 44 0

def vidHdrBytes (volType compat volId lnum : Nat) : List Nat :=
  vidHdrBody volType compat volId lnum ++
    encBe32 (mtd_crc32 UBI_CRC32_INIT (vidHdrBody volType compat volId lnum))

/-- The 128-byte `name` field: `strcpy` of the volume name into a
zeroed field (the terminating NUL is part of the zero fill). -/
def vtblNameArea (name : List Nat) : List Nat :=
  name ++ List.replicate (128 - name.length) 0

/-- `struct ubi_vtbl_record` without its trailing `crc`, for the slot
`i == args.vol_id`: `reserved_pebs` = `vol_lebs`, `alignment` = 1,
`data_pad` = 0, `vol_type` = dynamic, `upd_marker` = 0, `name_len`,
`name`, `flags` = 0 and 23 padding bytes. -/
def vtblRecBody (volLebs : Nat) (name : List Nat) : List Nat :=
  encBe32 volLebs ++ encBe32 1 ++ encBe32 0 ++ [UBI_VID_DYNAMIC, 0] ++
    encBe16 name.length ++ vtblNameArea name ++ List.replicate 24 0

/-- Every other slot stays zero-filled. -/
def vtblRecZero : List Nat := List.replicate 168 0

def vtblRecBytes (body : List Nat) : List Nat :=
  body ++ encBe32 (mtd_crc32 UBI_CRC32_INIT body)

/-- Record `i` of the volume table built by `eb_gen_data`. -/
def vtblRec (volId volLebs : Nat) (name : List Nat) (i : Nat) : List Nat :=
  vtblRecBytes (if i = volId then vtblRecBody volLebs name else vtblRecZero)

/-- The 128-record volume table placed at `data_offset`. -/
def vtblBytes (volId volLebs : Nat) (name : List Nat) : List Nat :=
  ((List.range 128).map (vtblRec volId volLebs name)).flatten

/-! ## Writer: arguments, input source, `data_read`, `eb_gen_data` -/

/-- The relevant fields of the writer's `struct args`, together with the
device geometry `mtd->eb_size` / `mtd->min_io_size`.  `volName = none`
models a null `args.vol_name` pointer. -/
structure GenArgs where
  ebSize : Nat
  minIo : Nat
  ubi : Bool
  stdIn : Bool
  clm : Bool
  lengthArg : Nat
  volId : Nat
  volLebs : Nat
  volName : Option (List Nat)

/-- The bytes still readable from the input descriptor.  `none` models
an invalid descriptor (`ifd = -1`, i.e. no input file given): a `read`
of a positive length fails on it. -/
structure Source where
  data : Option (List Nat)

/-- `data_read`: loops `read` until `len` bytes arrive.  End-of-file is
tolerated (returning the bytes read so far) only when reading stdin
without a fixed `--length`; any other premature EOF, and any read error,
yields `-1` (here `none`). A request of length 0 trivially succeeds. -/
def data_read (a : GenArgs) (src : Source) (len : Nat) :
    Option (List Nat × Source) :=
  if len = 0 then some ([], src)
  else
    match src.data with
    | none => none
    | some bs =>
      if len ≤ bs.length then some (bs.take len, ⟨some (bs.drop len)⟩)
      else if a.stdIn = true ∧ a.lengthArg = 0 then some (bs, ⟨some []⟩)
      else none

/-- One call of `eb_gen_data` (the static `blk_no` and `image_seq` are
threaded explicitly): returns the generated eraseblock buffer, its
`data_len`, and the updated input source and `data_left`; `none` is the
`-1` error return.  The buffer starts as `memset(block_buf, 0xff,
eb_size)` and the headers are then written at their offsets. -/
def eb_gen_data (a : GenArgs) (imageSeq blkNo : Nat) (src : Source)
    (dataLeft : Nat) : Option (List Nat × Nat × Source × Nat) :=
  let buf0 := List.replicate a.ebSize 0xFF
  if a.ubi then
    let dataOfs := a.minIo * 2
    let buf1 := writeAt buf0 0 (ecHdrBytes a.minIo imageSeq)
    if blkNo < UBI_LAYOUT_VOLUME_EBS then
      let buf2 := writeAt buf1 a.minIo
        (vidHdrBytes UBI_LAYOUT_VOLUME_TYPE UBI_LAYOUT_VOLUME_COMPAT
          UBI_LAYOUT_VOLUME_ID blkNo)
      let buf3 := writeAt buf2 dataOfs
        (vtblBytes a.volId a.volLebs (a.volName.getD []))
      some (buf3, dataOfs + 128 * UBI_VTBL_RECORD_SIZE, src, dataLeft)
    else if blkNo < a.volLebs + UBI_LAYOUT_VOLUME_EBS then
      let buf2 := writeAt buf1 a.minIo
        (vidHdrBytes UBI_VID_DYNAMIC 0 a.volId (blkNo - UBI_LAYOUT_VOLUME_EBS))
      match data_read a src (min dataLeft (a.ebSize - dataOfs)) with
      | none => none
      | some (chunk, src') =>
        some (writeAt buf2 dataOfs chunk, dataOfs + chunk.length, src',
          dataLeft - chunk.length)
    else
      some (buf1, UBI_EC_HDR_SIZE, src, dataLeft)
  else
    match data_read a src (min dataLeft a.ebSize) with
    | none => none
    | some (chunk, src') =>
      some (writeAt buf0 0 chunk, chunk.length, src', dataLeft - chunk.length)

/-! ### Normal forms of the generated blocks -/

/-- What a layout-volume PEB (`blk_no < UBI_LAYOUT_VOLUME_EBS`) looks
like: EC header, `0xFF` gap, layout VID header, `0xFF` gap, the
128-record volume table, trailing `0xFF`. -/
def layoutBlock (a : GenArgs) (seq blk : Nat) : List Nat :=
  ecHdrBytes a.minIo seq ++ List.replicate (a.minIo - 64) 0xFF ++
    vidHdrBytes UBI_LAYOUT_VOLUME_TYPE UBI_LAYOUT_VOLUME_COMPAT
      UBI_LAYOUT_VOLUME_ID blk ++
    List.replicate (a.minIo - 64) 0xFF ++
    vtblBytes a.volId a.volLebs (a.volName.getD []) ++
    List.replicate (a.ebSize - a.minIo * 2 - 22016) 0xFF

/-- What a volume-data PEB looks like: EC header, `0xFF` gap, dynamic
VID header, `0xFF` gap, the payload chunk, trailing `0xFF`. -/
def dataBlock (a : GenArgs) (seq blk : Nat) (chunk : List Nat) : List Nat :=
  ecHdrBytes a.minIo seq ++ List.replicate (a.minIo - 64) 0xFF ++
    vidHdrBytes UBI_VID_DYNAMIC 0 a.volId (blk - 2) ++
    List.replicate (a.minIo - 64) 0xFF ++ chunk ++
    List.replicate (a.ebSize - a.minIo * 2 - chunk.length) 0xFF

/-- What a trailing PEB (`blk_no ≥ vol_lebs + 2`) looks like: only the
EC header, the rest left erased. -/
def trailingBlock (a : GenArgs) (seq : Nat) : List Nat :=
  ecHdrBytes a.minIo seq ++ List.replicate (a.ebSize - 64) 0xFF

/-! ## Extractor (`deubinize.c`) -/

/-- `struct img_info` (minus the constant file size, carried
separately as `file.length`). -/
structure ImgInfo where
  vidHdrOffset : Nat
  dataOffset : Nat
  volId : Nat
  lnum : Nat

/-- A `read` of `n` bytes at absolute file offset `off`; a short read
(fewer than `n` bytes available) is an error on every call site. -/
def readN (file : List Nat) (off n : Nat) : Option (List Nat) :=
  if off + n ≤ file.length then some (slice file off n) else none

/-- `read_headers`, reading the PEB that starts at file offset `base`:
validate the EC header magic and CRC, extract `vid_hdr_offset` and
`data_offset`, require `data_offset < peb_size`, then read the VID
header; an all-`0xFF` VID magic marks an empty PEB (`vol_id` and `lnum`
both read as `0xFFFFFFFF`), otherwise magic and CRC must check out. -/
def read_headers (pebSize : Nat) (file : List Nat) (base : Nat) :
    Option ImgInfo :=
  match readN file base 64 with
  | none => none
  | some ec =>
    if decBe (slice ec 0 4) ≠ UBI_EC_HDR_MAGIC then none
    else if decBe (slice ec 60 4) ≠ mtd_crc32 UBI_CRC32_INIT (slice ec 0 60) then none
    else if pebSize ≤ decBe (slice ec 20 4) then none
    else
      match readN file (base + decBe (slice ec 16 4)) 64 with
      | none => none
      | some vid =>
        if decBe (slice vid 0 4) = 0xFFFFFFFF then
          some ⟨decBe (slice ec 16 4), decBe (slice ec 20 4), 0xFFFFFFFF, 0xFFFFFFFF⟩
        else if decBe (slice vid 0 4) ≠ UBI_VID_HDR_MAGIC then none
        else if decBe (slice vid 60 4) ≠ mtd_crc32 UBI_CRC32_INIT (slice vid 0 60) then none
        else some ⟨decBe (slice ec 16 4), decBe (slice ec 20 4),
          decBe (slice vid 8 4), decBe (slice vid 12 4)⟩

/-- The discovery walk of `read_ubi_info`: scan PEBs from the start of
the file until one whose VID header names the layout volume.  A header
validation failure here is fatal — `skip_bad` is not consulted.  `fuel`
bounds the walk; the in-loop `seek >= imi->size` check fires first when
`fuel` is the number of PEBs. -/
def find_layout (pebSize : Nat) (file : List Nat) (fuel base : Nat) :
    Option (Nat × ImgInfo) :=
  match fuel with
  | 0 => none
  | f + 1 =>
    match read_headers pebSize file base with
    | none => none
    | some imi =>
      if imi.volId = UBI_LAYOUT_VOLUME_ID then some (base, imi)
      else if file.length ≤ base + pebSize then none
      else find_layout pebSize file f (base + pebSize)

/-- `strncmp(vol_name, rec.name, n) == 0` where `v` holds the C
string's bytes before its NUL and `buf` the record's name field:
unequal bytes end the comparison false, a NUL on both sides ends it
true. -/
def strncmp_eq : List Nat → List Nat → Nat → Bool
  | _, _, 0 => true
  | [], b :: _, _ + 1 => b == 0
  | [], [], _ + 1 => true
  | _ :: _, [], _ + 1 => false
  | x :: v, b :: buf, n + 1 => x == b && (x == 0 || strncmp_eq v buf n)

/-- The by-name lookup of `read_ubi_info`: read the 128 volume-table
records sequentially from `pos` (the layout PEB's data area); each must
pass its CRC check; the first whose name matches `vol_name` under
`strncmp(·,·,UBI_VOL_NAME_MAX)` gives the volume index. -/
def find_vol_by_name (file : List Nat) (pos : Nat) (name : List Nat)
    (fuel ix : Nat) : Option Nat :=
  match fuel with
  | 0 => none
  | f + 1 =>
    match readN file (pos + ix * 172) 172 with
    | none => none
    | some r =>
      if decBe (slice r 168 4) ≠ mtd_crc32 UBI_CRC32_INIT (slice r 0 168) then none
      else if strncmp_eq name (slice r 16 128) 127 then some ix
      else find_vol_by_name file pos name f (ix + 1)

/-- The loop body of `extract_volume_data`, `r_seek = base` walking the
whole file PEB by PEB.  On a header validation failure the PEB is
skipped when `skip_bad` is set and fatal otherwise; PEBs of other
volumes (including empty ones) are skipped; a matching PEB's data area
(`data_size` bytes at its `data_offset`) is written to the output file
at offset `lnum * data_size`.  The output file is a byte function:
created with `O_TRUNC`, unwritten holes read back as zero. -/
def extract_go (pebSize dataSize volIndex : Nat) (skipBad : Bool)
    (file : List Nat) (fuel base : Nat) (out : Nat → Nat) :
    Option (Nat → Nat) :=
  match fuel with
  | 0 => some out
  | f + 1 =>
    match read_headers pebSize file base with
    | none =>
      if skipBad then
        extract_go pebSize dataSize volIndex skipBad file f (base + pebSize) out
      else none
    | some imi =>
      if imi.volId ≠ volIndex then
        extract_go pebSize dataSize volIndex skipBad file f (base + pebSize) out
      else
        match readN file (base + imi.dataOffset) dataSize with
        | none => none
        | some chunk =>
          extract_go pebSize dataSize volIndex skipBad file f (base + pebSize)
            (fun i =>
              if imi.lnum * dataSize ≤ i ∧ i < imi.lnum * dataSize + dataSize then
                chunk.getD (i - imi.lnum * dataSize) 0
              else out i)

/-- The extractor's by-name flow (`main`, `read_ubi_info`,
`extract_volume_data`): the image size must be a positive multiple of
`peb_size`; `data_size = peb_size - data_offset` with `data_offset`
taken from the layout PEB found by discovery. -/
def run_extractor (pebSize : Nat) (name : List Nat) (skipBad : Bool)
    (file : List Nat) : Option (Nat → Nat) :=
  if file.length = 0 ∨ file.length % pebSize ≠ 0 then none
  else
    match find_layout pebSize file (file.length / pebSize) 0 with
    | none => none
    | some (base, imi) =>
      match find_vol_by_name file (base + imi.dataOffset) name UBI_MAX_VOLUMES 0 with
      | none => none
      | some ix =>
        extract_go pebSize (pebSize - imi.dataOffset) ix skipBad file
          (file.length / pebSize) 0 (fun _ => 0)

/-! ## The sequence of blocks a UBI-mode writer run generates

`main`'s write pass calls `eb_gen_data` once per delivered block;
`mkBlocks` collects the successive buffers (the image content), with the
static `blk_no` starting at 0 and `data_left`/the input source threaded
through. -/

def mkBlocks (a : GenArgs) (seq : Nat) :
    Nat → Nat → Source → Nat → Option (List (List Nat))
  | 0, _, _, _ => some []
  | n + 1, blk, src, dl =>
    match eb_gen_data a seq blk src dl with
    | none => none
    | some (buf, _, src', dl') =>
      match mkBlocks a seq n (blk + 1) src' dl' with
      | none => none
      | some rest => some (buf :: rest)

/-- `n` PEBs of UBI image written from payload `P`: `image_size =
P.length`, and `data_left` starts at `image_size`, or at the
`(unsigned long)-1` sentinel when the payload is empty. -/
def mkImage (a : GenArgs) (seq : Nat) (P : List Nat) (n : Nat) :
    Option (List Nat) :=
  (mkBlocks a seq n 0 ⟨some P⟩
    (if P.length = 0 then 18446744073709551615 else P.length)).map List.flatten

/-- Payload chunk `l` : the `leb_size` bytes of `P` starting at
`l * leb_size` (short at the tail). -/
def chunkAt (a : GenArgs) (P : List Nat) (l : Nat) : List Nat :=
  slice P (l * (a.ebSize - a.minIo * 2)) (a.ebSize - a.minIo * 2)

/-- The block the writer generates for logical block number `blk`. -/
def expectedBlock (a : GenArgs) (seq : Nat) (P : List Nat) (blk : Nat) : List Nat :=
  if blk < 2 then layoutBlock a seq blk
  else if blk < a.volLebs + 2 then dataBlock a seq blk (chunkAt a P (blk - 2))
  else trailingBlock a seq

/-! ## The generated image, as the extractor sees it -/

def imageBlocks (a : GenArgs) (seq : Nat) (P : List Nat) (n : Nat) :
    List (List Nat) :=
  (List.range n).map (fun k => expectedBlock a seq P k)

def imageBytes (a : GenArgs) (seq : Nat) (P : List Nat) (n : Nat) : List Nat :=
  (imageBlocks a seq P n).flatten

/-! ## What the extraction phase writes -/

/-- `(unsigned long)-1`, the writer's "unlimited" `data_left` sentinel. -/
def UNLIMITED : Nat := 18446744073709551615

/-- The byte the extracted file must hold at offset `i` inside the
volume's LEB span: payload bytes first, then the `0xFF` fill of the
unwritten LEB tails. -/
def expectedOut (P : List Nat) (i : Nat) : Nat :=
  if i < P.length then P.getD i 0 else 0xFF

/-- Concrete arguments used by several witnesses: a 22528-byte PEB with
64-byte pages, UBI mode, volume id 0, one volume LEB, name "r". -/
def wArgs : GenArgs :=
  { ebSize := 22528, minIo := 64, ubi := true, stdIn := false, clm := false,
    lengthArg := 0, volId := 0, volLebs := 1, volName := some [114] }

/-! ## Writer: the page-level write loop (`eb_write`) -/

/-- Operations issued to the flash device by the writer.
`pageWrite eb pageAddr main oob` models
`mtd_write(..., eb, page_addr, main-or-NULL, len, oob-or-NULL, ...)`;
`erase` models `eb_erase` and `markBad` models `mtd_mark_bad`. -/
inductive FlashOp where
  | pageWrite (eb pageAddr : Nat) (main : Option (List Nat)) (oob : Option (List Nat))
  | erase (eb : Nat)
  | markBad (eb : Nat)
deriving DecidableEq

/-- The static 8-byte JFFS2 clean marker `eb_write` writes to the OOB
area of the first page when `--clm` is given. -/
def clean_marker : List Nat := [0x19, 0x85, 0x20, 0x03, 0x00, 0x00, 0x00, 0x08]

/-- The page loop of `eb_write`, fuelled.  `wfail eb pageAddr = true`
models `mtd_write` returning an error for that page.  Each iteration
scans the `minIo` page bytes for a non-`0xFF` byte (`write_len` stays 0
when all are `0xFF`, and then `NULL` data is passed), issues the write,
and on failure erases the eraseblock and — exactly when
`data_len % eb_size == 0` — marks it bad, returning failure.  The clean
marker rides on the first page only (`write_clm = 0` after a successful
page). -/
def eb_write_go (minIo ebSize : Nat) (wfail : Nat → Nat → Bool) (eb dataLen : Nat)
    (data : List Nat) (fuel pageAddr : Nat) (clm : Bool) : Bool × List FlashOp :=
  match fuel with
  | 0 => (true, [])
  | f + 1 =>
    if pageAddr < dataLen ∨ clm = true then
      let op := FlashOp.pageWrite eb pageAddr
        (if (slice data pageAddr minIo).all (fun b => b == 0xFF) then none
         else some (slice data pageAddr minIo))
        (if clm then some clean_marker else none)
      if wfail eb pageAddr then
        (false, [op, FlashOp.erase eb] ++
          (if dataLen % ebSize = 0 then [FlashOp.markBad eb] else []))
      else
        ((eb_write_go minIo ebSize wfail eb dataLen data f (pageAddr + minIo) false).1,
          op :: (eb_write_go minIo ebSize wfail eb dataLen data f (pageAddr + minIo) false).2)
    else (true, [])

/-- `eb_write`: returns success (`ret == 0`) as `true` together with the
trace of device operations.  `data_len == 0 && !write_clm` short-circuits
to success with no operations.  The fuel `dataLen / minIo + 2` strictly
dominates the number of loop iterations. -/
def eb_write (minIo ebSize : Nat) (wfail : Nat → Nat → Bool) (eb dataLen : Nat)
    (data : List Nat) (clm : Bool) : Bool × List FlashOp :=
  if dataLen = 0 ∧ clm = false then (true, [])
  else eb_write_go minIo ebSize wfail eb dataLen data (dataLen / minIo + 2) 0 clm

/-- The number of pages `eb_write` programs when no write fails: none at
all for `data_len = 0` without clean marker, one (marker-only) page for
`data_len = 0` with clean marker, otherwise `ceil(data_len / min_io)`. -/
def numPages (dataLen minIo : Nat) (clm : Bool) : Nat :=
  if dataLen = 0 then (if clm then 1 else 0) else (dataLen + minIo - 1) / minIo

/-- Pages still to be programmed when the loop stands at page index `k`
(page address `k * minIo`). -/
def pagesLeft (dataLen minIo k : Nat) (clm : Bool) : Nat :=
  if k * minIo < dataLen then (dataLen + minIo - 1) / minIo - k
  else if clm then 1 else 0

/-! ## Writer: the retry pass and the run driver (`main`) -/

/-- One attempted `eb_write` of a generated buffer: the PEB address it
went to, the logical block counter `blk_no` the buffer was generated
for, its `data_len` and contents, and whether the write succeeded. -/
structure Attempt where
  addr : Nat
  blk : Nat
  dataLen : Nat
  buf : List Nat
  ok : Bool
deriving DecidableEq

/-- The inner retry loop of `main` (`while (eb_addr < end) { ...
if (eb_write(...) == 0) break; eb_addr += mtd.eb_size; }`), fuelled by
the number of PEB addresses left in the window.  Returns the offset `k`
of the address that finally took the buffer (`none` if the window ran
out) and the list of attempts made. -/
def retry_go (minIo ebSize : Nat) (wfail : Nat → Nat → Bool) (clm : Bool)
    (buf : List Nat) (dlen blk fuel addr : Nat) : Option Nat × List Attempt :=
  match fuel with
  | 0 => (none, [])
  | f + 1 =>
    if (eb_write minIo ebSize wfail addr dlen buf clm).1 = true then
      (some 0, [⟨addr, blk, dlen, buf, true⟩])
    else
      ((retry_go minIo ebSize wfail clm buf dlen blk f (addr + 1)).1.map (fun k => k + 1),
        ⟨addr, blk, dlen, buf, false⟩ ::
          (retry_go minIo ebSize wfail clm buf dlen blk f (addr + 1)).2)

/-- The outer write loop of `main` (lines 590–610): generate a buffer,
retry it across the window; a generation error (`data_len < 0`) breaks
out with the flag `true`.  PEB addresses are counted in eraseblocks from
the start of the window; `windowPebs` is `(end - start) / eb_size`.
Returns the final `data_left`, the attempts made, and the
generation-error flag. -/
def write_loop_go (a : GenArgs) (seq : Nat) (wfail : Nat → Nat → Bool)
    (windowPebs fuel addr blkNo : Nat) (src : Source) (dl : Nat) :
    Nat × List Attempt × Bool :=
  match fuel with
  | 0 => (dl, [], false)
  | f + 1 =>
    if addr < windowPebs then
      match eb_gen_data a seq blkNo src dl with
      | none => (dl, [], true)
      | some (buf, dlen, src2, dl2) =>
        match retry_go a.minIo a.ebSize wfail a.clm buf dlen blkNo
            (windowPebs - addr) addr with
        | (none, atts) => (dl2, atts, false)
        | (some k, atts) =>
          ((write_loop_go a seq wfail windowPebs f (addr + k + 1) (blkNo + 1) src2 dl2).1,
            atts ++ (write_loop_go a seq wfail windowPebs f (addr + k + 1)
              (blkNo + 1) src2 dl2).2.1,
            (write_loop_go a seq wfail windowPebs f (addr + k + 1)
              (blkNo + 1) src2 dl2).2.2)
    else (dl, [], false)

/-- Outcome of a writer run: the terminal status (`none` = exit 0,
`some msg` = `errmsg_die(msg)`), the final `data_left`, the write
attempts, and whether generation errored out. -/
structure RunResult where
  status : Option String
  dl : Nat
  attempts : List Attempt
  genFail : Bool

/-- The write phase of `main` from line 580 on: with no image, no stdin
and no UBI the run succeeds with nothing written; otherwise `data_left`
starts as `image_size`, or as `(unsigned long)-1` when `image_size == 0`
(stdin or UBI without payload), the write loop runs over the window, and
the run succeeds iff `!data_left || !image_size` at the end, failing
otherwise with the partial-write message. -/
def runWriter (a : GenArgs) (seq : Nat) (wfail : Nat → Nat → Bool)
    (windowPebs imageSize : Nat) (src0 : Source) : RunResult :=
  if imageSize = 0 ∧ a.stdIn = false ∧ a.ubi = false then ⟨none, 0, [], false⟩
  else
    let dl0 := if imageSize = 0 then UNLIMITED else imageSize
    let r := write_loop_go a seq wfail windowPebs windowPebs 0 0 src0 dl0
    ⟨if r.1 = 0 ∨ imageSize = 0 then none
      else some "data only partially written due to error", r.1, r.2.1, r.2.2⟩

/-- A failed attempt is followed, if anything follows, by a retry of the
very same buffer (same `blk_no`, same `data_len`) at the next PEB
address. -/
def Radj (x y : Attempt) : Prop :=
  x.ok = false →
    y.addr = x.addr + 1 ∧ y.blk = x.blk ∧ y.buf = x.buf ∧ y.dataLen = x.dataLen

/-- A tiny non-UBI run: 2-byte eraseblocks, 1-byte pages, a 3-byte
payload from a regular file, a window of one PEB. -/
def cArgsW : GenArgs :=
  { ebSize := 2, minIo := 1, ubi := false, stdIn := false, clm := false,
    lengthArg := 3, volId := 0, volLebs := 0, volName := none }

def srcW : Source := ⟨some [7, 7, 7]⟩

/-- A device on which every page write fails. -/
def wfailAll : Nat → Nat → Bool := fun _ _ => true

/-- The trace `eb_write` leaves on `wfailAll` for a 2-byte eraseblock
full of payload: attempted page write, erase, mark-bad. -/
def failOpsW : List FlashOp :=
  [FlashOp.pageWrite 5 0 (some [7]) none, FlashOp.erase 5, FlashOp.markBad 5]

/-! ## Writer: UBI geometry checks of `main` (lines 534-572) and the
usage checks (lines 456-460) -/

/-- `tot_lebs = (end - start) / eb_size - UBI_LAYOUT_VOLUME_EBS`, a
signed `long` in the source. -/
def tot_lebs (windowPebs : Nat) : Int :=
  (windowPebs : Int) - (UBI_LAYOUT_VOLUME_EBS : Int)

/-- Resolution of the `--vol-lebs` argument (a `long`): `0` reserves 20
spare LEBs, a negative value is an offset below `tot_lebs`, a positive
value is taken verbatim. -/
def resolve_vol_lebs (tot arg : Int) : Int :=
  if arg = 0 then tot - 20
  else if arg < 0 then tot + arg
  else arg

/-- The guarded resolution: `vol_lebs < 0 || vol_lebs > tot_lebs` is
rejected. -/
def vol_lebs_check (tot arg : Int) : Option Int :=
  if resolve_vol_lebs tot arg < 0 ∨ tot < resolve_vol_lebs tot arg then none
  else some (resolve_vol_lebs tot arg)

/-- Outcome of the UBI geometry phase: the resolved `vol_lebs`, an
`errmsg` rejection, or the undefined `strlen(NULL)` reached when
`args.vol_name` was never supplied. -/
inductive GeomResult where
  | ok (volLebs : Nat)
  | die (msg : String)
  | nullDeref
deriving DecidableEq

/-- The `if (args.ubi)` block of `main`: resolve and bound `vol_lebs`,
check the image fits `vol_lebs * leb_size`, then — unconditionally —
take `strlen(args.vol_name)` and bound it by `UBI_VOL_NAME_MAX`. -/
def ubi_geometry (a : GenArgs) (windowPebs imageSize : Nat) (volLebsArg : Int) :
    GeomResult :=
  match vol_lebs_check (tot_lebs windowPebs) volLebsArg with
  | none => GeomResult.die "volume LEBs doesn't fit into allocated blocks"
  | some r =>
    if r.toNat * (a.ebSize - a.minIo * 2) < imageSize then
      GeomResult.die "image file does not fit into allocated LEBs"
    else
      match a.volName with
      | none => GeomResult.nullDeref
      | some nm =>
        if UBI_VOL_NAME_MAX < nm.length then GeomResult.die "volume name too long"
        else GeomResult.ok r.toNat

/-- The usage checks at the top of `main`: `--stdin` excludes an input
file, and `--ubi` *with input data* requires `--vol-name`.  `true` means
the run proceeds. -/
def usage_ok (imgFile stdIn ubi : Bool) (volName : Option (List Nat)) : Bool :=
  !(imgFile && stdIn) && !(ubi && (imgFile || stdIn) && volName.isNone)

/-- Result of a full writer run including the geometry phase: terminal
status plus the erase-pass and write-pass device operations. -/
structure FullResult where
  status : GeomResult
  eraseOps : List FlashOp
  attempts : List Attempt
deriving DecidableEq

/-- The erase pass (lines 577-578): `eb_erase` consults `mtd_is_bad`
and skips bad blocks. -/
def erase_pass (ibad : Nat → Bool) (windowPebs : Nat) : List FlashOp :=
  (List.range windowPebs).filterMap
    (fun i => if ibad i then none else some (FlashOp.erase i))

/-- `main` from the geometry checks onward: in UBI mode the geometry
phase may reject the run (or hit `strlen(NULL)`) before any device
operation; in raw mode the image must fit the window.  Then the erase
pass runs and `runWriter` takes over, with `args.vol_lebs` replaced by
the resolved value.  `GeomResult.ok 0` doubles as the success status of
a completed run; a completed run that failed carries `GeomResult.die`
with the partial-write message. -/
def runWriterFull (a : GenArgs) (seq : Nat) (wfail : Nat → Nat → Bool)
    (ibad : Nat → Bool) (windowPebs imageSize : Nat) (volLebsArg : Int)
    (src0 : Source) : FullResult :=
  if a.ubi = true then
    match ubi_geometry a windowPebs imageSize volLebsArg with
    | GeomResult.die msg => ⟨GeomResult.die msg, [], []⟩
    | GeomResult.nullDeref => ⟨GeomResult.nullDeref, [], []⟩
    | GeomResult.ok r =>
      match runWriter { a with volLebs := r } seq wfail windowPebs imageSize src0 with
      | ⟨none, _, atts, _⟩ => ⟨GeomResult.ok 0, erase_pass ibad windowPebs, atts⟩
      | ⟨some msg, _, atts, _⟩ =>
        ⟨GeomResult.die msg, erase_pass ibad windowPebs, atts⟩
  else
    if windowPebs * a.ebSize < imageSize then
      ⟨GeomResult.die "image file does not fit into allocated blocks", [], []⟩
    else
      match runWriter a seq wfail windowPebs imageSize src0 with
      | ⟨none, _, atts, _⟩ => ⟨GeomResult.ok 0, erase_pass ibad windowPebs, atts⟩
      | ⟨some msg, _, atts, _⟩ =>
        ⟨GeomResult.die msg, erase_pass ibad windowPebs, atts⟩

/-- A well-formed UBI argument set for geometry runs. -/
def uArgsW : GenArgs :=
  { ebSize := 200, minIo := 10, ubi := true, stdIn := false, clm := false,
    lengthArg := 0, volId := 0, volLebs := 0, volName := some [97] }

/-- UBI mode with no payload and `--vol-name` never given. -/
def nArgsW : GenArgs :=
  { ebSize := 200, minIo := 10, ubi := true, stdIn := false, clm := false,
    lengthArg := 0, volId := 0, volLebs := 0, volName := none }

/-! ### C9: zero-size payload in UBI mode -/

/-- The stdin variant of `wArgs`. -/
def sArgsW : GenArgs :=
  { ebSize := 22528, minIo := 64, ubi := true, stdIn := true, clm := false,
    lengthArg := 0, volId := 0, volLebs := 1, volName := some [114] }

/-! ## Theorems -/

/-! ## Basic lemmas -/

theorem length_encBe32 (n : Nat) : (encBe32 n).length = 4 := rfl

theorem length_encBe16 (n : Nat) : (encBe16 n).length = 2 := rfl

theorem decBe_encBe32 {n : Nat} (h : n < 2 ^ 32) : decBe (encBe32 n) = n := by
  simp only [encBe32, decBe, List.foldl]
  omega

theorem crcStep_lt {c : Nat} (h : c < 2 ^ 32) : crcStep c < 2 ^ 32 := by
  unfold crcStep
  split
  · exact Nat.xor_lt_two_pow (by omega) (by norm_num)
  · omega

theorem crcByte_lt {c : Nat} (b : Nat) (h : c < 2 ^ 32) : crcByte c b < 2 ^ 32 := by
  have hx : c ^^^ (b % 256) < 2 ^ 32 :=
    Nat.xor_lt_two_pow h (lt_trans (Nat.mod_lt _ (by norm_num)) (by norm_num))
  unfold crcByte
  have : ∀ k x, x < 2 ^ 32 → crcStep^[k] x < 2 ^ 32 := by
    intro k
    induction k with
    | zero => intro x hx; simpa using hx
    | succ k ih =>
      intro x hx
      rw [Function.iterate_succ_apply]
      exact ih _ (crcStep_lt hx)
  exact this 8 _ hx

theorem mtd_crc32_lt {seed : Nat} (l : List Nat) (h : seed < 2 ^ 32) :
    mtd_crc32 seed l < 2 ^ 32 := by
  unfold mtd_crc32
  induction l generalizing seed with
  | nil => simpa using h
  | cons b t ih => exact ih (crcByte_lt b h)

theorem mtd_crc32_init_lt (l : List Nat) : mtd_crc32 UBI_CRC32_INIT l < 2 ^ 32 :=
  mtd_crc32_lt l (by norm_num [UBI_CRC32_INIT])

/-! ### Slice algebra -/

theorem length_slice (l : List Nat) (o n : Nat) (h : o + n ≤ l.length) :
    (slice l o n).length = n := by
  simp [slice]
  omega

theorem slice_append_left {a : List Nat} (b : List Nat) {o n : Nat}
    (h : o + n ≤ a.length) : slice (a ++ b) o n = slice a o n := by
  unfold slice
  rw [List.drop_append_eq_append_drop, List.take_append_eq_append_take]
  have h1 : (a.drop o).length = a.length - o := List.length_drop ..
  have h2 : n - (a.drop o).length = 0 := by omega
  have h3 : o - a.length = 0 := by omega
  simp [h2, h3]
  exact Or.inl (by omega)

theorem slice_append_right {a : List Nat} (b : List Nat) {o : Nat} (n : Nat)
    (h : a.length ≤ o) : slice (a ++ b) o n = slice b (o - a.length) n := by
  unfold slice
  rw [List.drop_append_eq_append_drop, List.drop_eq_nil_of_le h]
  simp

theorem slice_all (l : List Nat) : slice l 0 l.length = l := by
  simp [slice]

theorem slice_replicate {m : Nat} (c : Nat) {o n : Nat} (h : o + n ≤ m) :
    slice (List.replicate m c) o n = List.replicate n c := by
  unfold slice
  rw [List.drop_replicate, List.take_replicate]
  congr 1
  omega

theorem slice_take_prefix {a : List Nat} (b : List Nat) :
    slice (a ++ b) 0 a.length = a := by
  rw [slice_append_left b (by omega), slice_all]

theorem slice_of_length {l : List Nat} {n : Nat} (h : n = l.length) :
    slice l 0 n = l := by
  subst h
  exact slice_all l

/-! ### `writeAt` algebra -/

theorem length_writeAt {b : List Nat} {o : Nat} {w : List Nat}
    (h : o + w.length ≤ b.length) : (writeAt b o w).length = b.length := by
  simp [writeAt]
  omega

theorem writeAt_append_right {a : List Nat} (b : List Nat) {o : Nat} (w : List Nat)
    (h : a.length ≤ o) : writeAt (a ++ b) o w = a ++ writeAt b (o - a.length) w := by
  unfold writeAt
  rw [List.take_append_eq_append_take, List.take_of_length_le h,
    List.drop_append_eq_append_drop, List.drop_eq_nil_of_le (by omega)]
  simp only [List.nil_append, List.append_assoc]
  have h2 : o + w.length - a.length = o - a.length + w.length := by omega
  rw [h2]

theorem writeAt_replicate {m : Nat} (c : Nat) {o : Nat} {w : List Nat}
    (h : o + w.length ≤ m) :
    writeAt (List.replicate m c) o w =
      List.replicate o c ++ w ++ List.replicate (m - o - w.length) c := by
  unfold writeAt
  rw [List.take_replicate, List.drop_replicate]
  have h1 : min o m = o := by omega
  have h2 : m - (o + w.length) = m - o - w.length := by omega
  rw [h1, h2]

theorem writeAt_zero (b : List Nat) (w : List Nat) :
    writeAt b 0 w = w ++ b.drop w.length := by
  simp [writeAt]

theorem length_ecHdrBody (minIo seq : Nat) : (ecHdrBody minIo seq).length = 60 := rfl

theorem length_ecHdrBytes (minIo seq : Nat) : (ecHdrBytes minIo seq).length = 64 := rfl

theorem length_vidHdrBody (a b c d : Nat) : (vidHdrBody a b c d).length = 60 := rfl

theorem length_vidHdrBytes (a b c d : Nat) : (vidHdrBytes a b c d).length = 64 := rfl

theorem length_vtblNameArea {name : List Nat} (h : name.length ≤ 128) :
    (vtblNameArea name).length = 128 := by
  simp [vtblNameArea]
  omega

theorem length_vtblRecBody {volLebs : Nat} {name : List Nat} (h : name.length ≤ 128) :
    (vtblRecBody volLebs name).length = 168 := by
  simp [vtblRecBody, encBe32, encBe16, length_vtblNameArea h]

theorem length_vtblRec {volId volLebs i : Nat} {name : List Nat} (h : name.length ≤ 128) :
    (vtblRec volId volLebs name i).length = 172 := by
  unfold vtblRec vtblRecBytes
  split
  · simp [length_vtblRecBody h, encBe32]
  · simp [vtblRecZero, encBe32]

theorem length_vtblBytes {volId volLebs : Nat} {name : List Nat} (h : name.length ≤ 128) :
    (vtblBytes volId volLebs name).length = 22016 := by
  unfold vtblBytes
  rw [List.length_flatten, List.map_map]
  rw [List.map_congr_left (g := fun _ => 172) (by
    intro a _
    exact length_vtblRec h)]
  decide

/-! ### Slicing a flattened list of uniform-length chunks -/

theorem slice_flatten_uniform {L : Nat} :
    ∀ (bs : List (List Nat)) (p o n : Nat), (∀ b ∈ bs, b.length = L) →
      p < bs.length → o + n ≤ L →
      slice bs.flatten (p * L + o) n = slice (bs.getD p []) o n := by
  intro bs
  induction bs with
  | nil => intro p o n _ hp _; simp at hp
  | cons b t ih =>
    intro p o n hL hp hn
    have hb : b.length = L := hL b (by simp)
    match p with
    | 0 =>
      rw [List.flatten_cons, List.getD_cons_zero]
      have h0 : 0 * L + o = o := by omega
      rw [h0]
      exact slice_append_left t.flatten (by omega)
    | Nat.succ p =>
      rw [List.flatten_cons, List.getD_cons_succ]
      have hs : (p + 1) * L = p * L + L := Nat.succ_mul p L
      have h1 : b.length ≤ (p + 1) * L + o := by rw [hb, hs]; omega
      rw [slice_append_right t.flatten _ h1]
      have h2 : (p + 1) * L + o - b.length = p * L + o := by rw [hb, hs]; omega
      rw [h2]
      exact ih p o n (fun x hx => hL x (by simp [hx])) (by simpa using hp) hn

theorem getD_map_range {f : Nat → List Nat} {m p : Nat} (hp : p < m) :
    ((List.range m).map f).getD p [] = f p := by
  rw [List.getD_eq_getElem?_getD, List.getElem?_map, List.getElem?_range hp]
  rfl

/-- Record `i` of the encoded volume table, read back by offset. -/
theorem slice_vtblBytes {volId volLebs i : Nat} {name : List Nat}
    (hn : name.length ≤ 128) (hi : i < 128) :
    slice (vtblBytes volId volLebs name) (172 * i) 172 =
      vtblRec volId volLebs name i := by
  have h := slice_flatten_uniform (L := 172) ((List.range 128).map (vtblRec volId volLebs name))
    i 0 172 (by
      intro b hb
      obtain ⟨a, _, rfl⟩ := List.mem_map.mp hb
      exact length_vtblRec hn) (by simpa using hi) (by omega)
  rw [Nat.mul_comm 172 i]
  unfold vtblBytes
  have h2 : i * 172 + 0 = i * 172 := by omega
  rw [← h2, h, getD_map_range hi]
  conv_rhs => rw [← slice_all (vtblRec volId volLebs name i)]
  rw [length_vtblRec hn]

/-- Dispatch `data_read` on a known input state. -/
theorem data_read_eq_of_some {a : GenArgs} {src : Source} {len : Nat}
    {bs : List Nat} (hd : src.data = some bs) :
    data_read a src len =
      if len = 0 then some ([], src)
      else if len ≤ bs.length then some (bs.take len, ⟨some (bs.drop len)⟩)
      else if a.stdIn = true ∧ a.lengthArg = 0 then some (bs, ⟨some []⟩)
      else none := by
  unfold data_read
  rw [hd]

theorem data_read_eq_of_none {a : GenArgs} {src : Source} {len : Nat}
    (hd : src.data = none) :
    data_read a src len = if len = 0 then some ([], src) else none := by
  unfold data_read
  rw [hd]

theorem data_read_length_le {a : GenArgs} {src : Source} {len : Nat}
    {chunk : List Nat} {src' : Source}
    (h : data_read a src len = some (chunk, src')) : chunk.length ≤ len := by
  by_cases h0 : len = 0
  · subst h0
    have hz : data_read a src 0 = some ([], src) := by
      unfold data_read
      rw [if_pos rfl]
    rw [hz] at h
    have h1 : ([] : List Nat) = chunk := congrArg Prod.fst (Option.some.inj h)
    rw [← h1]
    simp
  · cases hd : src.data with
    | none =>
      rw [data_read_eq_of_none hd, if_neg h0] at h
      exact absurd h (by simp)
    | some bs =>
      rw [data_read_eq_of_some hd, if_neg h0] at h
      by_cases hle : len ≤ bs.length
      · rw [if_pos hle] at h
        have h1 : bs.take len = chunk := congrArg Prod.fst (Option.some.inj h)
        subst h1
        rw [List.length_take]
        omega
      · rw [if_neg hle] at h
        by_cases hs : a.stdIn = true ∧ a.lengthArg = 0
        · rw [if_pos hs] at h
          have h1 : bs = chunk := congrArg Prod.fst (Option.some.inj h)
          subst h1
          omega
        · rw [if_neg hs] at h
          exact absurd h (by simp)

theorem writeAt_ec {eb m s : Nat} :
    writeAt (List.replicate eb 0xFF) 0 (ecHdrBytes m s) =
      ecHdrBytes m s ++ List.replicate (eb - 64) 0xFF := by
  rw [writeAt_zero, length_ecHdrBytes, List.drop_replicate]

theorem writeAt_vid {eb minIo : Nat} (hdr vid : List Nat)
    (h1 : hdr.length = 64) (h2 : vid.length = 64) (h64 : 64 ≤ minIo)
    (hfit : minIo + 64 ≤ eb) :
    writeAt (hdr ++ List.replicate (eb - 64) 0xFF) minIo vid =
      hdr ++ List.replicate (minIo - 64) 0xFF ++ vid ++
        List.replicate (eb - minIo - 64) 0xFF := by
  rw [writeAt_append_right _ vid (by omega), h1,
    writeAt_replicate 0xFF (by omega), h2]
  have h3 : eb - 64 - (minIo - 64) - 64 = eb - minIo - 64 := by omega
  rw [h3]
  simp [List.append_assoc]

theorem writeAt_payload {eb minIo : Nat} (hdr vid payload : List Nat)
    (h1 : hdr.length = 64) (h2 : vid.length = 64) (h64 : 64 ≤ minIo)
    (hfit : minIo * 2 + payload.length ≤ eb) :
    writeAt (hdr ++ List.replicate (minIo - 64) 0xFF ++ vid ++
        List.replicate (eb - minIo - 64) 0xFF) (minIo * 2) payload =
      hdr ++ List.replicate (minIo - 64) 0xFF ++ vid ++
        List.replicate (minIo - 64) 0xFF ++ payload ++
        List.replicate (eb - minIo * 2 - payload.length) 0xFF := by
  rw [List.append_assoc, List.append_assoc,
    writeAt_append_right _ payload (by omega), h1]
  rw [writeAt_append_right _ payload (by simp; omega)]
  have h3 : minIo * 2 - 64 - (List.replicate (minIo - 64) (0xFF : Nat)).length = minIo := by
    simp
    omega
  rw [h3, writeAt_append_right _ payload (by omega), h2,
    writeAt_replicate 0xFF (by omega)]
  have h4 : minIo - 64 + payload.length ≤ eb - minIo - 64 := by omega
  have h5 : eb - minIo - 64 - (minIo - 64) - payload.length =
      eb - minIo * 2 - payload.length := by omega
  rw [h5]
  simp [List.append_assoc]

theorem eb_gen_data_layout {a : GenArgs} {seq blkNo : Nat} {src : Source}
    {dl : Nat} (hu : a.ubi = true) (h64 : 64 ≤ a.minIo)
    (hfit : a.minIo * 2 + 22016 ≤ a.ebSize) (hblk : blkNo < 2)
    (hname : (a.volName.getD []).length ≤ 128) :
    eb_gen_data a seq blkNo src dl =
      some (layoutBlock a seq blkNo, a.minIo * 2 + 22016, src, dl) := by
  unfold eb_gen_data
  rw [hu]
  simp only [UBI_LAYOUT_VOLUME_EBS, if_pos hblk, if_pos rfl]
  rw [writeAt_ec,
    writeAt_vid _ _ (length_ecHdrBytes ..) (length_vidHdrBytes ..) h64 (by omega),
    writeAt_payload _ _ _ (length_ecHdrBytes ..) (length_vidHdrBytes ..) h64
      (by rw [length_vtblBytes hname]; omega),
    length_vtblBytes hname]
  rfl

theorem eb_gen_data_data {a : GenArgs} {seq blkNo : Nat} {src src' : Source}
    {dl : Nat} {chunk : List Nat} (hu : a.ubi = true) (h64 : 64 ≤ a.minIo)
    (hfit : a.minIo * 2 + 22016 ≤ a.ebSize) (hblk1 : 2 ≤ blkNo)
    (hblk2 : blkNo < a.volLebs + 2)
    (hread : data_read a src (min dl (a.ebSize - a.minIo * 2)) = some (chunk, src')) :
    eb_gen_data a seq blkNo src dl =
      some (dataBlock a seq blkNo chunk, a.minIo * 2 + chunk.length, src',
        dl - chunk.length) := by
  have hlen : chunk.length ≤ a.ebSize - a.minIo * 2 :=
    le_trans (data_read_length_le hread) (by omega)
  have hstep : eb_gen_data a seq blkNo src dl =
      some (writeAt (writeAt (writeAt (List.replicate a.ebSize 0xFF) 0
          (ecHdrBytes a.minIo seq)) a.minIo
          (vidHdrBytes UBI_VID_DYNAMIC 0 a.volId (blkNo - 2)))
        (a.minIo * 2) chunk, a.minIo * 2 + chunk.length, src',
        dl - chunk.length) := by
    unfold eb_gen_data
    rw [hu]
    simp only [UBI_LAYOUT_VOLUME_EBS, if_neg (by omega : ¬ blkNo < 2),
      if_pos (by omega : blkNo < a.volLebs + 2)]
    rw [hread]
    rfl
  rw [hstep, writeAt_ec,
    writeAt_vid _ _ (length_ecHdrBytes ..) (length_vidHdrBytes ..) h64 (by omega),
    writeAt_payload _ _ _ (length_ecHdrBytes ..) (length_vidHdrBytes ..) h64
      (by omega)]
  rfl

theorem eb_gen_data_data_err {a : GenArgs} {seq blkNo : Nat} {src : Source}
    {dl : Nat} (hu : a.ubi = true) (hblk1 : 2 ≤ blkNo)
    (hblk2 : blkNo < a.volLebs + 2)
    (hread : data_read a src (min dl (a.ebSize - a.minIo * 2)) = none) :
    eb_gen_data a seq blkNo src dl = none := by
  unfold eb_gen_data
  rw [hu]
  simp only [UBI_LAYOUT_VOLUME_EBS, if_neg (by omega : ¬ blkNo < 2),
    if_pos (by omega : blkNo < a.volLebs + 2)]
  rw [hread]
  rfl

theorem eb_gen_data_trailing {a : GenArgs} {seq blkNo : Nat} {src : Source}
    {dl : Nat} (hu : a.ubi = true) (hblk : a.volLebs + 2 ≤ blkNo) :
    eb_gen_data a seq blkNo src dl =
      some (trailingBlock a seq, UBI_EC_HDR_SIZE, src, dl) := by
  unfold eb_gen_data
  rw [hu]
  simp only [UBI_LAYOUT_VOLUME_EBS, if_neg (by omega : ¬ blkNo < 2),
    if_neg (by omega : ¬ blkNo < a.volLebs + 2)]
  rw [writeAt_ec]
  rfl

theorem length_layoutBlock {a : GenArgs} {seq blk : Nat} (h64 : 64 ≤ a.minIo)
    (hfit : a.minIo * 2 + 22016 ≤ a.ebSize)
    (hname : (a.volName.getD []).length ≤ 128) :
    (layoutBlock a seq blk).length = a.ebSize := by
  simp [layoutBlock, length_ecHdrBytes, length_vidHdrBytes, length_vtblBytes hname]
  omega

theorem length_dataBlock {a : GenArgs} {seq blk : Nat} {chunk : List Nat}
    (h64 : 64 ≤ a.minIo) (hfit : a.minIo * 2 + 22016 ≤ a.ebSize)
    (hchunk : chunk.length ≤ a.ebSize - a.minIo * 2) :
    (dataBlock a seq blk chunk).length = a.ebSize := by
  simp [dataBlock, length_ecHdrBytes, length_vidHdrBytes]
  omega

theorem length_trailingBlock {a : GenArgs} {seq : Nat} (h64 : 64 ≤ a.ebSize) :
    (trailingBlock a seq).length = a.ebSize := by
  simp [trailingBlock, length_ecHdrBytes]
  omega

/-! ## Reading fields back from the encoded headers -/

theorem decBe_ec_magic (m s : Nat) :
    decBe (slice (ecHdrBytes m s) 0 4) = UBI_EC_HDR_MAGIC := rfl

theorem slice_ec_body (m s : Nat) :
    slice (ecHdrBytes m s) 0 60 = ecHdrBody m s := rfl

theorem slice_ec_crc (m s : Nat) :
    slice (ecHdrBytes m s) 60 4 =
      encBe32 (mtd_crc32 UBI_CRC32_INIT (ecHdrBody m s)) := rfl

theorem slice_ec_vho (m s : Nat) : slice (ecHdrBytes m s) 16 4 = encBe32 m := rfl

theorem slice_ec_dofs (m s : Nat) :
    slice (ecHdrBytes m s) 20 4 = encBe32 (m * 2) := rfl

theorem decBe_vid_magic (a b c d : Nat) :
    decBe (slice (vidHdrBytes a b c d) 0 4) = UBI_VID_HDR_MAGIC := rfl

theorem slice_vid_body (a b c d : Nat) :
    slice (vidHdrBytes a b c d) 0 60 = vidHdrBody a b c d := rfl

theorem slice_vid_crc (a b c d : Nat) :
    slice (vidHdrBytes a b c d) 60 4 =
      encBe32 (mtd_crc32 UBI_CRC32_INIT (vidHdrBody a b c d)) := rfl

theorem slice_vid_volid (a b c d : Nat) :
    slice (vidHdrBytes a b c d) 8 4 = encBe32 c := rfl

theorem slice_vid_lnum (a b c d : Nat) :
    slice (vidHdrBytes a b c d) 12 4 = encBe32 d := rfl

theorem slice_recBytes_body {body : List Nat} (h : body.length = 168) :
    slice (vtblRecBytes body) 0 168 = body := by
  unfold vtblRecBytes
  rw [slice_append_left _ (by omega), ← h, slice_all]

theorem slice_recBytes_crc {body : List Nat} (h : body.length = 168) :
    slice (vtblRecBytes body) 168 4 =
      encBe32 (mtd_crc32 UBI_CRC32_INIT body) := by
  unfold vtblRecBytes
  rw [slice_append_right _ 4 (by omega), h]
  have h2 : (168 : Nat) - 168 = 0 := by omega
  rw [h2]
  exact slice_of_length rfl

theorem slice_vtblRecBody_name {volLebs : Nat} {name : List Nat}
    (h : name.length ≤ 128) :
    slice (vtblRecBody volLebs name) 16 128 = vtblNameArea name := by
  unfold vtblRecBody
  rw [slice_append_left _ (by
    simp [length_vtblNameArea h, encBe32, encBe16])]
  rw [slice_append_right _ 128 (by simp [encBe32, encBe16])]
  have h2 : (16 : Nat) - (((encBe32 volLebs ++ encBe32 1 ++ encBe32 0 ++
      [UBI_VID_DYNAMIC, 0]) ++ encBe16 name.length)).length = 0 := by
    simp [encBe32, encBe16]
  simp only [List.append_assoc] at h2 ⊢
  rw [h2]
  conv_rhs => rw [← slice_all (vtblNameArea name)]
  rw [length_vtblNameArea h]

theorem slice_vtblRecZero_name : slice vtblRecZero 16 128 = List.replicate 128 0 := by
  unfold vtblRecZero
  exact slice_replicate 0 (by omega)

/-! ## Slicing the generated blocks -/

theorem slice_layoutBlock_ec {a : GenArgs} {seq blk : Nat} :
    slice (layoutBlock a seq blk) 0 64 = ecHdrBytes a.minIo seq := by
  unfold layoutBlock
  rw [slice_append_left _ (by simp [length_ecHdrBytes]),
    slice_append_left _ (by simp [length_ecHdrBytes]),
    slice_append_left _ (by simp [length_ecHdrBytes]),
    slice_append_left _ (by simp [length_ecHdrBytes]),
    slice_append_left _ (by simp [length_ecHdrBytes])]
  conv_rhs => rw [← slice_all (ecHdrBytes a.minIo seq)]
  rfl

theorem slice_layoutBlock_vid {a : GenArgs} {seq blk : Nat} (h64 : 64 ≤ a.minIo) :
    slice (layoutBlock a seq blk) a.minIo 64 =
      vidHdrBytes UBI_LAYOUT_VOLUME_TYPE UBI_LAYOUT_VOLUME_COMPAT
        UBI_LAYOUT_VOLUME_ID blk := by
  unfold layoutBlock
  rw [slice_append_left _ (by simp [length_ecHdrBytes, length_vidHdrBytes]; omega),
    slice_append_left _ (by simp [length_ecHdrBytes, length_vidHdrBytes]; omega),
    slice_append_left _ (by simp [length_ecHdrBytes, length_vidHdrBytes]; omega),
    slice_append_right _ 64 (by simp [length_ecHdrBytes]; omega)]
  have h2 : a.minIo - (ecHdrBytes a.minIo seq ++
      List.replicate (a.minIo - 64) 0xFF).length = 0 := by
    simp [length_ecHdrBytes]
    omega
  rw [h2]
  conv_rhs => rw [← slice_all (vidHdrBytes UBI_LAYOUT_VOLUME_TYPE
    UBI_LAYOUT_VOLUME_COMPAT UBI_LAYOUT_VOLUME_ID blk)]
  rfl

theorem slice_layoutBlock_rec {a : GenArgs} {seq blk i : Nat}
    (h64 : 64 ≤ a.minIo) (hname : (a.volName.getD []).length ≤ 128)
    (hi : i < 128) :
    slice (layoutBlock a seq blk) (a.minIo * 2 + 172 * i) 172 =
      vtblRec a.volId a.volLebs (a.volName.getD []) i := by
  unfold layoutBlock
  rw [slice_append_left _ (by
    simp [length_ecHdrBytes, length_vidHdrBytes, length_vtblBytes hname]
    omega)]
  rw [slice_append_right _ 172 (by
    simp [length_ecHdrBytes, length_vidHdrBytes]
    omega)]
  have h2 : a.minIo * 2 + 172 * i - ((ecHdrBytes a.minIo seq ++
      List.replicate (a.minIo - 64) 0xFF ++
      vidHdrBytes UBI_LAYOUT_VOLUME_TYPE UBI_LAYOUT_VOLUME_COMPAT
        UBI_LAYOUT_VOLUME_ID blk ++
      List.replicate (a.minIo - 64) 0xFF)).length = 172 * i := by
    simp [length_ecHdrBytes, length_vidHdrBytes]
    omega
  rw [h2, slice_vtblBytes hname hi]

theorem slice_dataBlock_ec {a : GenArgs} {seq blk : Nat} {chunk : List Nat} :
    slice (dataBlock a seq blk chunk) 0 64 = ecHdrBytes a.minIo seq := by
  unfold dataBlock
  rw [slice_append_left _ (by simp [length_ecHdrBytes]),
    slice_append_left _ (by simp [length_ecHdrBytes]),
    slice_append_left _ (by simp [length_ecHdrBytes]),
    slice_append_left _ (by simp [length_ecHdrBytes]),
    slice_append_left _ (by simp [length_ecHdrBytes])]
  conv_rhs => rw [← slice_all (ecHdrBytes a.minIo seq)]
  rfl

theorem slice_dataBlock_vid {a : GenArgs} {seq blk : Nat} {chunk : List Nat}
    (h64 : 64 ≤ a.minIo) :
    slice (dataBlock a seq blk chunk) a.minIo 64 =
      vidHdrBytes UBI_VID_DYNAMIC 0 a.volId (blk - 2) := by
  unfold dataBlock
  rw [slice_append_left _ (by simp [length_ecHdrBytes, length_vidHdrBytes]; omega),
    slice_append_left _ (by simp [length_ecHdrBytes, length_vidHdrBytes]; omega),
    slice_append_left _ (by simp [length_ecHdrBytes, length_vidHdrBytes]; omega),
    slice_append_right _ 64 (by simp [length_ecHdrBytes]; omega)]
  have h2 : a.minIo - (ecHdrBytes a.minIo seq ++
      List.replicate (a.minIo - 64) 0xFF).length = 0 := by
    simp [length_ecHdrBytes]
    omega
  rw [h2]
  conv_rhs => rw [← slice_all (vidHdrBytes UBI_VID_DYNAMIC 0 a.volId (blk - 2))]
  rfl

theorem slice_dataBlock_data {a : GenArgs} {seq blk : Nat} {chunk : List Nat}
    (h64 : 64 ≤ a.minIo) (hchunk : chunk.length ≤ a.ebSize - a.minIo * 2) :
    slice (dataBlock a seq blk chunk) (a.minIo * 2) (a.ebSize - a.minIo * 2) =
      chunk ++ List.replicate (a.ebSize - a.minIo * 2 - chunk.length) 0xFF := by
  unfold dataBlock
  rw [List.append_assoc (ecHdrBytes a.minIo seq ++ List.replicate (a.minIo - 64) 0xFF ++
    vidHdrBytes UBI_VID_DYNAMIC 0 a.volId (blk - 2) ++ List.replicate (a.minIo - 64) 0xFF)]
  rw [slice_append_right _ (a.ebSize - a.minIo * 2) (by
    simp [length_ecHdrBytes, length_vidHdrBytes]
    omega)]
  have h2 : a.minIo * 2 - ((ecHdrBytes a.minIo seq ++
      List.replicate (a.minIo - 64) 0xFF ++
      vidHdrBytes UBI_VID_DYNAMIC 0 a.volId (blk - 2) ++
      List.replicate (a.minIo - 64) 0xFF)).length = 0 := by
    simp [length_ecHdrBytes, length_vidHdrBytes]
    omega
  rw [h2]
  exact slice_of_length (by simp; omega)

theorem slice_trailingBlock_ec {a : GenArgs} {seq : Nat} :
    slice (trailingBlock a seq) 0 64 = ecHdrBytes a.minIo seq := by
  unfold trailingBlock
  rw [slice_append_left _ (by simp [length_ecHdrBytes])]
  conv_rhs => rw [← slice_all (ecHdrBytes a.minIo seq)]
  rfl

theorem slice_trailingBlock_vidarea {a : GenArgs} {seq : Nat}
    (h64 : 64 ≤ a.minIo) (hfit : a.minIo + 64 ≤ a.ebSize) :
    slice (trailingBlock a seq) a.minIo 64 = List.replicate 64 0xFF := by
  unfold trailingBlock
  rw [slice_append_right _ 64 (by simp [length_ecHdrBytes]; omega)]
  have h2 : a.minIo - (ecHdrBytes a.minIo seq).length = a.minIo - 64 := by
    simp [length_ecHdrBytes]
  rw [h2]
  exact slice_replicate 0xFF (by omega)

/-! ## Reads from a file made of uniformly sized PEBs -/

theorem length_flatten_uniform {eb : Nat} {bs : List (List Nat)}
    (hL : ∀ b ∈ bs, b.length = eb) : bs.flatten.length = bs.length * eb := by
  induction bs with
  | nil => simp
  | cons b t ih =>
    rw [List.flatten_cons]
    simp only [List.length_append, List.length_cons]
    rw [hL b (by simp), ih (fun x hx => hL x (by simp [hx])), Nat.succ_mul]
    omega

theorem readN_flatten {eb : Nat} {bs : List (List Nat)}
    (hL : ∀ b ∈ bs, b.length = eb) {p o n : Nat} (hp : p < bs.length)
    (hn : o + n ≤ eb) :
    readN bs.flatten (p * eb + o) n = some (slice (bs.getD p []) o n) := by
  unfold readN
  rw [length_flatten_uniform hL]
  rw [if_pos (by
    have h1 : (p + 1) * eb ≤ bs.length * eb := Nat.mul_le_mul_right eb (by omega)
    rw [Nat.succ_mul] at h1
    omega)]
  rw [slice_flatten_uniform bs p o n hL hp hn]

/-! ## Classifying `read_headers` on the generated blocks -/

theorem read_headers_of_readN {pebSize : Nat} {file : List Nat} {base : Nat}
    {ec : List Nat} (hec : readN file base 64 = some ec) :
    read_headers pebSize file base =
      (if decBe (slice ec 0 4) ≠ UBI_EC_HDR_MAGIC then none
       else if decBe (slice ec 60 4) ≠ mtd_crc32 UBI_CRC32_INIT (slice ec 0 60) then none
       else if pebSize ≤ decBe (slice ec 20 4) then none
       else
         match readN file (base + decBe (slice ec 16 4)) 64 with
         | none => none
         | some vid =>
           if decBe (slice vid 0 4) = 0xFFFFFFFF then
             some ⟨decBe (slice ec 16 4), decBe (slice ec 20 4), 0xFFFFFFFF, 0xFFFFFFFF⟩
           else if decBe (slice vid 0 4) ≠ UBI_VID_HDR_MAGIC then none
           else if decBe (slice vid 60 4) ≠ mtd_crc32 UBI_CRC32_INIT (slice vid 0 60) then none
           else some ⟨decBe (slice ec 16 4), decBe (slice ec 20 4),
             decBe (slice vid 8 4), decBe (slice vid 12 4)⟩) := by
  unfold read_headers
  rw [hec]

theorem read_headers_of_readN2 {pebSize : Nat} {file : List Nat} {base : Nat}
    {ec vid : List Nat} (hec : readN file base 64 = some ec)
    (h1 : decBe (slice ec 0 4) = UBI_EC_HDR_MAGIC)
    (h2 : decBe (slice ec 60 4) = mtd_crc32 UBI_CRC32_INIT (slice ec 0 60))
    (h3 : decBe (slice ec 20 4) < pebSize)
    (hvid : readN file (base + decBe (slice ec 16 4)) 64 = some vid) :
    read_headers pebSize file base =
      (if decBe (slice vid 0 4) = 0xFFFFFFFF then
        some ⟨decBe (slice ec 16 4), decBe (slice ec 20 4), 0xFFFFFFFF, 0xFFFFFFFF⟩
      else if decBe (slice vid 0 4) ≠ UBI_VID_HDR_MAGIC then none
      else if decBe (slice vid 60 4) ≠ mtd_crc32 UBI_CRC32_INIT (slice vid 0 60) then none
      else some ⟨decBe (slice ec 16 4), decBe (slice ec 20 4),
        decBe (slice vid 8 4), decBe (slice vid 12 4)⟩) := by
  rw [read_headers_of_readN hec, if_neg (by simp [h1]), if_neg (by simp [h2]),
    if_neg (by omega), hvid]

/-- A PEB whose EC and VID headers were generated by the writer parses
back to exactly the fields the writer stored. -/
theorem read_headers_valid {pebSize base : Nat} {file : List Nat}
    {m s vt cp vi ln : Nat}
    (hec : readN file base 64 = some (ecHdrBytes m s))
    (hvid : readN file (base + m) 64 = some (vidHdrBytes vt cp vi ln))
    (hofs : m * 2 < pebSize) (hm32 : m * 2 < 2 ^ 32)
    (hvi : vi < 2 ^ 32) (hln : ln < 2 ^ 32) :
    read_headers pebSize file base = some ⟨m, m * 2, vi, ln⟩ := by
  have hm : m < 2 ^ 32 := by omega
  have hvid' : readN file (base + decBe (slice (ecHdrBytes m s) 16 4)) 64 =
      some (vidHdrBytes vt cp vi ln) := by
    rw [slice_ec_vho, decBe_encBe32 hm]
    exact hvid
  rw [read_headers_of_readN2 hec (decBe_ec_magic ..)
    (by rw [slice_ec_crc, slice_ec_body, decBe_encBe32 (mtd_crc32_init_lt _)])
    (by rw [slice_ec_dofs, decBe_encBe32 hm32]; omega) hvid']
  rw [if_neg (by rw [decBe_vid_magic]; decide)]
  rw [if_neg (by rw [decBe_vid_magic]; simp)]
  rw [if_neg (by
    rw [slice_vid_crc, slice_vid_body, decBe_encBe32 (mtd_crc32_init_lt _)]
    simp)]
  rw [slice_ec_vho, slice_ec_dofs, slice_vid_volid, slice_vid_lnum,
    decBe_encBe32 hm, decBe_encBe32 hm32, decBe_encBe32 hvi, decBe_encBe32 hln]

/-- A PEB whose VID header area is still erased (all `0xFF`) parses as
an empty PEB: `vol_id` and `lnum` read back as `0xFFFFFFFF`. -/
theorem read_headers_ff {pebSize base : Nat} {file : List Nat} {m s : Nat}
    (hec : readN file base 64 = some (ecHdrBytes m s))
    (hvid : readN file (base + m) 64 = some (List.replicate 64 0xFF))
    (hofs : m * 2 < pebSize) (hm32 : m * 2 < 2 ^ 32) :
    read_headers pebSize file base = some ⟨m, m * 2, 0xFFFFFFFF, 0xFFFFFFFF⟩ := by
  have hm : m < 2 ^ 32 := by omega
  have hvid' : readN file (base + decBe (slice (ecHdrBytes m s) 16 4)) 64 =
      some (List.replicate 64 0xFF) := by
    rw [slice_ec_vho, decBe_encBe32 hm]
    exact hvid
  rw [read_headers_of_readN2 hec (decBe_ec_magic ..)
    (by rw [slice_ec_crc, slice_ec_body, decBe_encBe32 (mtd_crc32_init_lt _)])
    (by rw [slice_ec_dofs, decBe_encBe32 hm32]; omega) hvid']
  rw [if_pos (by decide)]
  rw [slice_ec_vho, slice_ec_dofs, decBe_encBe32 hm, decBe_encBe32 hm32]

theorem chunkAt_length_le {a : GenArgs} {P : List Nat} (l : Nat) :
    (chunkAt a P l).length ≤ a.ebSize - a.minIo * 2 := by
  unfold chunkAt slice
  simp

theorem mkBlocks_cons {a : GenArgs} {seq n blk : Nat} {src src' : Source}
    {dl : Nat} {buf : List Nat} {len dl' : Nat}
    (hgen : eb_gen_data a seq blk src dl = some (buf, len, src', dl')) :
    mkBlocks a seq (n + 1) blk src dl =
      match mkBlocks a seq n (blk + 1) src' dl' with
      | none => none
      | some rest => some (buf :: rest) := by
  rw [show mkBlocks a seq (n + 1) blk src dl =
      (match eb_gen_data a seq blk src dl with
       | none => none
       | some (buf, _, src', dl') =>
         match mkBlocks a seq n (blk + 1) src' dl' with
         | none => none
         | some rest => some (buf :: rest)) from rfl, hgen]

theorem map_range_succ (f : Nat → List Nat) (n : Nat) :
    (List.range (n + 1)).map f = f 0 :: (List.range n).map (fun k => f (k + 1)) := by
  rw [List.range_succ_eq_map]
  simp [Function.comp_def]

theorem mkBlocks_spec {a : GenArgs} {seq : Nat} {P : List Nat}
    (hu : a.ubi = true) (h64 : 64 ≤ a.minIo)
    (hfit : a.minIo * 2 + 22016 ≤ a.ebSize)
    (hname : (a.volName.getD []).length ≤ 128)
    (hP : P.length ≤ a.volLebs * (a.ebSize - a.minIo * 2)) :
    ∀ n blk,
      mkBlocks a seq n blk ⟨some (P.drop ((blk - 2) * (a.ebSize - a.minIo * 2)))⟩
          (P.length - (blk - 2) * (a.ebSize - a.minIo * 2)) =
        some ((List.range n).map (fun k => expectedBlock a seq P (blk + k))) := by
  intro n
  induction n with
  | zero => intro blk; simp [mkBlocks]
  | succ n ih =>
    intro blk
    rcases Nat.lt_or_ge blk 2 with hb1 | hb1
    · -- layout block: the input state is untouched
      rw [mkBlocks_cons (eb_gen_data_layout hu h64 hfit hb1 hname)]
      have h1 : blk + 1 - 2 = blk - 2 := by omega
      have ih' := ih (blk + 1)
      rw [h1] at ih'
      rw [ih', map_range_succ]
      have hhead : layoutBlock a seq blk = expectedBlock a seq P (blk + 0) := by
        simp [expectedBlock, hb1]
      have htail : (List.range n).map (fun k => expectedBlock a seq P (blk + 1 + k)) =
          (List.range n).map (fun k => expectedBlock a seq P (blk + (k + 1))) := by
        apply List.map_congr_left
        intro k _
        congr 1
        omega
      rw [hhead, htail]
    · rcases Nat.lt_or_ge blk (a.volLebs + 2) with hb2 | hb2
      · -- volume-data block: one chunk of the payload is consumed
        have hs : (blk + 1 - 2) * (a.ebSize - a.minIo * 2) =
            (blk - 2) * (a.ebSize - a.minIo * 2) + (a.ebSize - a.minIo * 2) := by
          rw [show blk + 1 - 2 = (blk - 2) + 1 from by omega, Nat.succ_mul]
        have hlen_bs : (P.drop ((blk - 2) * (a.ebSize - a.minIo * 2))).length =
            P.length - (blk - 2) * (a.ebSize - a.minIo * 2) := List.length_drop ..
        have hread : data_read a ⟨some (P.drop ((blk - 2) * (a.ebSize - a.minIo * 2)))⟩
            (min (P.length - (blk - 2) * (a.ebSize - a.minIo * 2))
              (a.ebSize - a.minIo * 2)) =
            some ((P.drop ((blk - 2) * (a.ebSize - a.minIo * 2))).take
                (min (P.length - (blk - 2) * (a.ebSize - a.minIo * 2))
                  (a.ebSize - a.minIo * 2)),
              ⟨some ((P.drop ((blk - 2) * (a.ebSize - a.minIo * 2))).drop
                (min (P.length - (blk - 2) * (a.ebSize - a.minIo * 2))
                  (a.ebSize - a.minIo * 2)))⟩) := by
          by_cases hw : min (P.length - (blk - 2) * (a.ebSize - a.minIo * 2))
              (a.ebSize - a.minIo * 2) = 0
          · rw [hw]
            unfold data_read
            rw [if_pos rfl]
            simp
          · rw [data_read_eq_of_some rfl, if_neg hw, if_pos (by omega)]
        have hgen := @eb_gen_data_data a seq blk _ _ _ _ hu h64 hfit hb1 hb2 hread
        rw [mkBlocks_cons hgen]
        -- identify the produced chunk and the successor input state
        have hchunk : (P.drop ((blk - 2) * (a.ebSize - a.minIo * 2))).take
            (min (P.length - (blk - 2) * (a.ebSize - a.minIo * 2))
              (a.ebSize - a.minIo * 2)) = chunkAt a P (blk - 2) := by
          unfold chunkAt slice
          rcases Nat.le_total (a.ebSize - a.minIo * 2)
              (P.length - (blk - 2) * (a.ebSize - a.minIo * 2)) with hc | hc
          · rw [Nat.min_eq_right hc]
          · rw [Nat.min_eq_left hc, List.take_of_length_le (by omega),
              List.take_of_length_le (by omega)]
        have hsrc : (P.drop ((blk - 2) * (a.ebSize - a.minIo * 2))).drop
            (min (P.length - (blk - 2) * (a.ebSize - a.minIo * 2))
              (a.ebSize - a.minIo * 2)) =
            P.drop ((blk + 1 - 2) * (a.ebSize - a.minIo * 2)) := by
          rw [List.drop_drop]
          rcases Nat.le_total (a.ebSize - a.minIo * 2)
              (P.length - (blk - 2) * (a.ebSize - a.minIo * 2)) with hc | hc
          · rw [Nat.min_eq_right hc]
            congr 1
            omega
          · rw [Nat.min_eq_left hc, List.drop_eq_nil_of_le (by omega),
              List.drop_eq_nil_of_le (by rw [hs]; omega)]
        have hdl : P.length - (blk - 2) * (a.ebSize - a.minIo * 2) -
            ((P.drop ((blk - 2) * (a.ebSize - a.minIo * 2))).take
              (min (P.length - (blk - 2) * (a.ebSize - a.minIo * 2))
                (a.ebSize - a.minIo * 2))).length =
            P.length - (blk + 1 - 2) * (a.ebSize - a.minIo * 2) := by
          rw [List.length_take, hlen_bs, hs]
          omega
        rw [hsrc, hdl, hchunk, ih (blk + 1), map_range_succ]
        have hhead : dataBlock a seq blk (chunkAt a P (blk - 2)) =
            expectedBlock a seq P (blk + 0) := by
          simp only [Nat.add_zero, expectedBlock, if_neg (by omega : ¬ blk < 2),
            if_pos hb2]
        have htail : (List.range n).map (fun k => expectedBlock a seq P (blk + 1 + k)) =
            (List.range n).map (fun k => expectedBlock a seq P (blk + (k + 1))) := by
          apply List.map_congr_left
          intro k _
          congr 1
          omega
        rw [hhead, htail]
      · -- trailing block: only the EC header, input state untouched
        rw [mkBlocks_cons (eb_gen_data_trailing hu (by omega))]
        have hge1 : P.length ≤ (blk - 2) * (a.ebSize - a.minIo * 2) :=
          le_trans hP (Nat.mul_le_mul_right _ (by omega))
        have hge2 : P.length ≤ (blk + 1 - 2) * (a.ebSize - a.minIo * 2) :=
          le_trans hP (Nat.mul_le_mul_right _ (by omega))
        have hsrc : P.drop ((blk - 2) * (a.ebSize - a.minIo * 2)) =
            P.drop ((blk + 1 - 2) * (a.ebSize - a.minIo * 2)) := by
          rw [List.drop_eq_nil_of_le hge1, List.drop_eq_nil_of_le hge2]
        have hdl : P.length - (blk - 2) * (a.ebSize - a.minIo * 2) =
            P.length - (blk + 1 - 2) * (a.ebSize - a.minIo * 2) := by
          omega
        rw [hsrc, hdl, ih (blk + 1), map_range_succ]
        have hhead : trailingBlock a seq = expectedBlock a seq P (blk + 0) := by
          simp only [Nat.add_zero, expectedBlock, if_neg (by omega : ¬ blk < 2),
            if_neg (by omega : ¬ blk < a.volLebs + 2)]
        have htail : (List.range n).map (fun k => expectedBlock a seq P (blk + 1 + k)) =
            (List.range n).map (fun k => expectedBlock a seq P (blk + (k + 1))) := by
          apply List.map_congr_left
          intro k _
          congr 1
          omega
        rw [hhead, htail]

/-! ## Step lemmas for the extractor loops -/

theorem find_layout_found {ps : Nat} {file : List Nat} {f base : Nat} {imi : ImgInfo}
    (h : read_headers ps file base = some imi)
    (hl : imi.volId = UBI_LAYOUT_VOLUME_ID) :
    find_layout ps file (f + 1) base = some (base, imi) := by
  rw [find_layout.eq_def, h]
  simp [hl]

theorem find_layout_fail {ps : Nat} {file : List Nat} {f base : Nat}
    (h : read_headers ps file base = none) :
    find_layout ps file (f + 1) base = none := by
  rw [find_layout.eq_def, h]

theorem find_vol_found {file : List Nat} {pos : Nat} {name : List Nat} {f ix : Nat}
    {r : List Nat} (hr : readN file (pos + ix * 172) 172 = some r)
    (hcrc : decBe (slice r 168 4) = mtd_crc32 UBI_CRC32_INIT (slice r 0 168))
    (hm : strncmp_eq name (slice r 16 128) 127 = true) :
    find_vol_by_name file pos name (f + 1) ix = some ix := by
  rw [find_vol_by_name.eq_def, hr]
  simp [hcrc, hm]

theorem find_vol_next {file : List Nat} {pos : Nat} {name : List Nat} {f ix : Nat}
    {r : List Nat} (hr : readN file (pos + ix * 172) 172 = some r)
    (hcrc : decBe (slice r 168 4) = mtd_crc32 UBI_CRC32_INIT (slice r 0 168))
    (hm : strncmp_eq name (slice r 16 128) 127 = false) :
    find_vol_by_name file pos name (f + 1) ix =
      find_vol_by_name file pos name f (ix + 1) := by
  rw [find_vol_by_name.eq_def, hr]
  simp [hcrc, hm]

theorem extract_go_zero {ps ds vi : Nat} {sb : Bool} {file : List Nat} {base : Nat}
    {out : Nat → Nat} : extract_go ps ds vi sb file 0 base out = some out := rfl

theorem extract_go_skip {ps ds vi : Nat} {sb : Bool} {file : List Nat}
    {m base : Nat} {out : Nat → Nat} {imi : ImgInfo}
    (h : read_headers ps file base = some imi) (hne : imi.volId ≠ vi) :
    extract_go ps ds vi sb file (m + 1) base out =
      extract_go ps ds vi sb file m (base + ps) out := by
  rw [extract_go.eq_def, h]
  simp [hne]

theorem extract_go_write {ps ds vi : Nat} {sb : Bool} {file : List Nat}
    {m base : Nat} {out : Nat → Nat} {imi : ImgInfo} {chunk : List Nat}
    (h : read_headers ps file base = some imi) (heq : imi.volId = vi)
    (hread : readN file (base + imi.dataOffset) ds = some chunk) :
    extract_go ps ds vi sb file (m + 1) base out =
      extract_go ps ds vi sb file m (base + ps)
        (fun i =>
          if imi.lnum * ds ≤ i ∧ i < imi.lnum * ds + ds then
            chunk.getD (i - imi.lnum * ds) 0
          else out i) := by
  rw [extract_go.eq_def, h]
  simp [heq, hread]

theorem extract_go_bad {ps ds vi : Nat} {sb : Bool} {file : List Nat}
    {m base : Nat} {out : Nat → Nat}
    (h : read_headers ps file base = none) :
    extract_go ps ds vi sb file (m + 1) base out =
      if sb then extract_go ps ds vi sb file m (base + ps) out else none := by
  rw [extract_go.eq_def, h]

theorem length_expectedBlock {a : GenArgs} {seq : Nat} {P : List Nat} {blk : Nat}
    (h64 : 64 ≤ a.minIo) (hfit : a.minIo * 2 + 22016 ≤ a.ebSize)
    (hname : (a.volName.getD []).length ≤ 128) :
    (expectedBlock a seq P blk).length = a.ebSize := by
  unfold expectedBlock
  split
  · exact length_layoutBlock h64 hfit hname
  · split
    · exact length_dataBlock h64 hfit (chunkAt_length_le _)
    · exact length_trailingBlock (by omega)

theorem imageBlocks_mem_length {a : GenArgs} {seq : Nat} {P : List Nat} {n : Nat}
    (h64 : 64 ≤ a.minIo) (hfit : a.minIo * 2 + 22016 ≤ a.ebSize)
    (hname : (a.volName.getD []).length ≤ 128) :
    ∀ b ∈ imageBlocks a seq P n, b.length = a.ebSize := by
  intro b hb
  obtain ⟨k, _, rfl⟩ := List.mem_map.mp hb
  exact length_expectedBlock h64 hfit hname

theorem readN_image {a : GenArgs} {seq : Nat} {P : List Nat} {n p o m : Nat}
    (h64 : 64 ≤ a.minIo) (hfit : a.minIo * 2 + 22016 ≤ a.ebSize)
    (hname : (a.volName.getD []).length ≤ 128) (hp : p < n)
    (ho : o + m ≤ a.ebSize) :
    readN (imageBytes a seq P n) (p * a.ebSize + o) m =
      some (slice (expectedBlock a seq P p) o m) := by
  unfold imageBytes
  rw [readN_flatten (imageBlocks_mem_length h64 hfit hname)
    (by simpa [imageBlocks] using hp) ho]
  rw [imageBlocks, getD_map_range hp]

theorem read_headers_image {a : GenArgs} {seq : Nat} {P : List Nat} {n p : Nat}
    (h64 : 64 ≤ a.minIo) (hfit : a.minIo * 2 + 22016 ≤ a.ebSize)
    (hname : (a.volName.getD []).length ≤ 128) (heb32 : a.ebSize < 2 ^ 32)
    (hvolid : a.volId < 128) (hn32 : n < 2 ^ 32) (hp : p < n) :
    read_headers a.ebSize (imageBytes a seq P n) (p * a.ebSize) =
      some (if p < 2 then ⟨a.minIo, a.minIo * 2, UBI_LAYOUT_VOLUME_ID, p⟩
        else if p < a.volLebs + 2 then ⟨a.minIo, a.minIo * 2, a.volId, p - 2⟩
        else ⟨a.minIo, a.minIo * 2, 0xFFFFFFFF, 0xFFFFFFFF⟩) := by
  have hec0 := @readN_image a seq P n p 0 64 h64 hfit hname hp (by omega)
  rw [Nat.add_zero] at hec0
  have hvid0 := @readN_image a seq P n p a.minIo 64 h64 hfit hname hp (by omega)
  rcases Nat.lt_or_ge p 2 with hp2 | hp2
  · rw [if_pos hp2]
    have hblk : expectedBlock a seq P p = layoutBlock a seq p := by
      simp [expectedBlock, hp2]
    rw [hblk, slice_layoutBlock_ec] at hec0
    rw [hblk, slice_layoutBlock_vid h64] at hvid0
    exact read_headers_valid hec0 hvid0 (by omega) (by omega)
      (by norm_num [UBI_LAYOUT_VOLUME_ID]) (by omega)
  · rcases Nat.lt_or_ge p (a.volLebs + 2) with hp3 | hp3
    · rw [if_neg (by omega), if_pos hp3]
      have hblk : expectedBlock a seq P p = dataBlock a seq p (chunkAt a P (p - 2)) := by
        simp only [expectedBlock, if_neg (by omega : ¬ p < 2), if_pos hp3]
      rw [hblk, slice_dataBlock_ec] at hec0
      rw [hblk, slice_dataBlock_vid h64] at hvid0
      exact read_headers_valid hec0 hvid0 (by omega) (by omega) (by omega) (by omega)
    · rw [if_neg (by omega), if_neg (by omega)]
      have hblk : expectedBlock a seq P p = trailingBlock a seq := by
        simp only [expectedBlock, if_neg (by omega : ¬ p < 2),
          if_neg (by omega : ¬ p < a.volLebs + 2)]
      rw [hblk, slice_trailingBlock_ec] at hec0
      rw [hblk, slice_trailingBlock_vidarea h64 (by omega)] at hvid0
      exact read_headers_ff hec0 hvid0 (by omega) (by omega)

theorem find_layout_image {a : GenArgs} {seq : Nat} {P : List Nat} {n : Nat}
    (h64 : 64 ≤ a.minIo) (hfit : a.minIo * 2 + 22016 ≤ a.ebSize)
    (hname : (a.volName.getD []).length ≤ 128) (heb32 : a.ebSize < 2 ^ 32)
    (hvolid : a.volId < 128) (hn32 : n < 2 ^ 32) (hn : 1 ≤ n) (f : Nat) :
    find_layout a.ebSize (imageBytes a seq P n) (f + 1) 0 =
      some (0, ⟨a.minIo, a.minIo * 2, UBI_LAYOUT_VOLUME_ID, 0⟩) := by
  have h0 := @read_headers_image a seq P n 0 h64 hfit hname heb32 hvolid hn32 (by omega)
  rw [Nat.zero_mul, if_pos (by omega)] at h0
  exact find_layout_found h0 rfl

/-! ## Resolving the volume name in the table -/

theorem length_vtblRecZero : vtblRecZero.length = 168 := rfl

theorem vtblRec_crc_ok {volId volLebs ix : Nat} {nm : List Nat}
    (hname : nm.length ≤ 128) :
    decBe (slice (vtblRec volId volLebs nm ix) 168 4) =
      mtd_crc32 UBI_CRC32_INIT (slice (vtblRec volId volLebs nm ix) 0 168) := by
  unfold vtblRec
  by_cases hix : ix = volId
  · rw [if_pos hix, slice_recBytes_crc (length_vtblRecBody hname),
      slice_recBytes_body (length_vtblRecBody hname),
      decBe_encBe32 (mtd_crc32_init_lt _)]
  · rw [if_neg hix, slice_recBytes_crc length_vtblRecZero,
      slice_recBytes_body length_vtblRecZero,
      decBe_encBe32 (mtd_crc32_init_lt _)]

theorem slice_vtblRec_name {volId volLebs ix : Nat} {nm : List Nat}
    (hname : nm.length ≤ 127) :
    slice (vtblRec volId volLebs nm ix) 16 128 =
      if ix = volId then vtblNameArea nm else List.replicate 128 0 := by
  unfold vtblRec vtblRecBytes
  by_cases hix : ix = volId
  · rw [if_pos hix, if_pos hix,
      slice_append_left _ (by rw [length_vtblRecBody (by omega)]; omega)]
    exact slice_vtblRecBody_name (by omega)
  · rw [if_neg hix, if_neg hix,
      slice_append_left _ (by rw [length_vtblRecZero]; omega)]
    exact slice_vtblRecZero_name

theorem strncmp_self {v : List Nat} :
    ∀ (t : List Nat) (n : Nat), (∀ x ∈ v, x ≠ 0) →
      strncmp_eq v (v ++ 0 :: t) n = true := by
  induction v with
  | nil =>
    intro t n _
    match n with
    | 0 => rfl
    | n + 1 => simp [strncmp_eq]
  | cons x v ih =>
    intro t n hz
    match n with
    | 0 => rfl
    | n + 1 =>
      rw [List.cons_append]
      show (x == x && (x == 0 || strncmp_eq v (v ++ 0 :: t) n)) = true
      rw [ih t n (fun y hy => hz y (by simp [hy]))]
      simp

theorem strncmp_zero_head {x : Nat} (v t : List Nat) (n : Nat) (hx : x ≠ 0) :
    strncmp_eq (x :: v) (0 :: t) (n + 1) = false := by
  show (x == 0 && (x == 0 || strncmp_eq v t n)) = false
  simp [hx]

theorem readN_image_rec {a : GenArgs} {seq : Nat} {P : List Nat} {n ix : Nat}
    (h64 : 64 ≤ a.minIo) (hfit : a.minIo * 2 + 22016 ≤ a.ebSize)
    (hname : (a.volName.getD []).length ≤ 128) (hn : 1 ≤ n) (hix : ix < 128) :
    readN (imageBytes a seq P n) (0 + a.minIo * 2 + ix * 172) 172 =
      some (vtblRec a.volId a.volLebs (a.volName.getD []) ix) := by
  have h := @readN_image a seq P n 0 (a.minIo * 2 + 172 * ix) 172 h64 hfit hname
    (by omega) (by omega)
  rw [show (0 : Nat) * a.ebSize + (a.minIo * 2 + 172 * ix) =
    0 + a.minIo * 2 + ix * 172 from by omega] at h
  rw [show expectedBlock a seq P 0 = layoutBlock a seq 0 from by
    simp [expectedBlock]] at h
  rw [slice_layoutBlock_rec h64 hname hix] at h
  exact h

theorem find_vol_image_aux {a : GenArgs} {seq : Nat} {P : List Nat} {n : Nat}
    (h64 : 64 ≤ a.minIo) (hfit : a.minIo * 2 + 22016 ≤ a.ebSize)
    (hn127 : (a.volName.getD []).length ≤ 127) (hvolid : a.volId < 128)
    (hn : 1 ≤ n) (hne : a.volName.getD [] ≠ [])
    (hz : ∀ x ∈ a.volName.getD [], x ≠ 0) :
    ∀ k, k ≤ a.volId →
      find_vol_by_name (imageBytes a seq P n) (0 + a.minIo * 2)
          (a.volName.getD []) (128 - (a.volId - k)) (a.volId - k) =
        some a.volId := by
  have hname : (a.volName.getD []).length ≤ 128 := by omega
  intro k
  induction k with
  | zero =>
    intro _
    rw [Nat.sub_zero, show 128 - a.volId = (127 - a.volId) + 1 from by omega]
    have hr := @readN_image_rec a seq P n a.volId h64 hfit hname hn (by omega)
    apply find_vol_found hr (vtblRec_crc_ok hname)
    rw [slice_vtblRec_name hn127, if_pos rfl]
    unfold vtblNameArea
    rw [show 128 - (a.volName.getD []).length =
      (127 - (a.volName.getD []).length) + 1 from by omega, List.replicate_succ]
    exact strncmp_self _ 127 hz
  | succ k ihk =>
    intro hk
    have hix : a.volId - (k + 1) < 128 := by omega
    rw [show 128 - (a.volId - (k + 1)) = (128 - (a.volId - (k + 1)) - 1) + 1
      from by omega]
    have hr := @readN_image_rec a seq P n (a.volId - (k + 1)) h64 hfit hname hn hix
    rw [find_vol_next hr (vtblRec_crc_ok hname) ?hm]
    case hm =>
      rw [slice_vtblRec_name hn127, if_neg (by omega)]
      match hv : a.volName.getD [] with
      | [] => exact absurd hv hne
      | x :: v =>
        rw [show (128 : Nat) = 127 + 1 from rfl, List.replicate_succ]
        exact strncmp_zero_head v _ 126 (hz x (by rw [hv]; simp))
    rw [show 128 - (a.volId - (k + 1)) - 1 = 128 - (a.volId - k) from by omega,
      show a.volId - (k + 1) + 1 = a.volId - k from by omega]
    exact ihk (by omega)

theorem find_vol_image {a : GenArgs} {seq : Nat} {P : List Nat} {n : Nat}
    (h64 : 64 ≤ a.minIo) (hfit : a.minIo * 2 + 22016 ≤ a.ebSize)
    (hn127 : (a.volName.getD []).length ≤ 127) (hvolid : a.volId < 128)
    (hn : 1 ≤ n) (hne : a.volName.getD [] ≠ [])
    (hz : ∀ x ∈ a.volName.getD [], x ≠ 0) :
    find_vol_by_name (imageBytes a seq P n) (0 + a.minIo * 2)
        (a.volName.getD []) 128 0 = some a.volId := by
  have h := @find_vol_image_aux a seq P n h64 hfit hn127 hvolid hn hne hz a.volId
    (by omega)
  rw [Nat.sub_self] at h
  exact h

theorem chunk_padded_getD {a : GenArgs} {P : List Nat} {l j : Nat}
    (hj : j < a.ebSize - a.minIo * 2) :
    (chunkAt a P l ++
      List.replicate ((a.ebSize - a.minIo * 2) - (chunkAt a P l).length) 0xFF).getD
        j 0 =
      expectedOut P (l * (a.ebSize - a.minIo * 2) + j) := by
  have hlen : (chunkAt a P l).length =
      min (a.ebSize - a.minIo * 2) (P.length - l * (a.ebSize - a.minIo * 2)) := by
    simp [chunkAt, slice]
  by_cases hc : j < (chunkAt a P l).length
  · rw [List.getD_eq_getElem?_getD, List.getElem?_append_left hc]
    unfold chunkAt slice
    rw [List.getElem?_take_of_lt (by omega), List.getElem?_drop]
    unfold expectedOut
    rw [if_pos (by omega)]
    rw [List.getD_eq_getElem?_getD]
  · rw [List.getD_eq_getElem?_getD, List.getElem?_append_right (by omega),
      List.getElem?_replicate_of_lt (by omega)]
    unfold expectedOut
    rw [if_neg (by omega)]
    rfl

theorem extract_go_image {a : GenArgs} {seq : Nat} {P : List Nat} {n : Nat}
    (h64 : 64 ≤ a.minIo) (hfit : a.minIo * 2 + 22016 ≤ a.ebSize)
    (hname : (a.volName.getD []).length ≤ 128) (heb32 : a.ebSize < 2 ^ 32)
    (hvolid : a.volId < 128) (hn32 : n < 2 ^ 32) (hn2 : a.volLebs + 2 ≤ n)
    (sb : Bool) :
    ∀ m p out, p + m = n →
      extract_go a.ebSize (a.ebSize - a.minIo * 2) a.volId sb
          (imageBytes a seq P n) m (p * a.ebSize) out =
        some (fun i =>
          if min (p - 2) a.volLebs * (a.ebSize - a.minIo * 2) ≤ i ∧
              i < a.volLebs * (a.ebSize - a.minIo * 2) then
            expectedOut P i
          else out i) := by
  intro m
  induction m with
  | zero =>
    intro p out hpm
    rw [extract_go_zero]
    have e : min (p - 2) a.volLebs = a.volLebs := by omega
    simp only [e]
    congr 1
    funext i
    rw [if_neg (by omega)]
  | succ m ihm =>
    intro p out hpm
    have hp : p < n := by omega
    have hdr := @read_headers_image a seq P n p h64 hfit hname heb32 hvolid hn32 hp
    have hstep : p * a.ebSize + a.ebSize = (p + 1) * a.ebSize :=
      (Nat.succ_mul p a.ebSize).symm
    rcases Nat.lt_or_ge p 2 with hp2 | hp2
    · -- layout PEB: vol_id is the layout volume's, skipped
      rw [if_pos hp2] at hdr
      rw [extract_go_skip hdr (by
        show UBI_LAYOUT_VOLUME_ID ≠ a.volId
        norm_num [UBI_LAYOUT_VOLUME_ID]
        omega)]
      rw [hstep, ihm (p + 1) out (by omega)]
      have e : min (p + 1 - 2) a.volLebs = min (p - 2) a.volLebs := by omega
      simp only [e]
    · rcases Nat.lt_or_ge p (a.volLebs + 2) with hp3 | hp3
      · -- a PEB of the requested volume: its data area is written out
        rw [if_neg (by omega), if_pos hp3] at hdr
        have hread := @readN_image a seq P n p (a.minIo * 2)
          (a.ebSize - a.minIo * 2) h64 hfit hname hp (by omega)
        rw [show expectedBlock a seq P p = dataBlock a seq p (chunkAt a P (p - 2)) from by
            simp only [expectedBlock, if_neg (by omega : ¬ p < 2), if_pos hp3],
          slice_dataBlock_data h64 (chunkAt_length_le _)] at hread
        rw [extract_go_write hdr rfl hread, hstep, ihm (p + 1) _ (by omega)]
        have e1 : min (p + 1 - 2) a.volLebs = (p - 2) + 1 := by omega
        have e2 : min (p - 2) a.volLebs = p - 2 := by omega
        simp only [e1, e2]
        have hmul : ((p - 2) + 1) * (a.ebSize - a.minIo * 2) =
            (p - 2) * (a.ebSize - a.minIo * 2) + (a.ebSize - a.minIo * 2) :=
          Nat.succ_mul ..
        have hmono : ((p - 2) + 1) * (a.ebSize - a.minIo * 2) ≤
            a.volLebs * (a.ebSize - a.minIo * 2) :=
          Nat.mul_le_mul_right _ (by omega)
        congr 1
        funext i
        by_cases h1 : (p - 2) * (a.ebSize - a.minIo * 2) ≤ i ∧
            i < a.volLebs * (a.ebSize - a.minIo * 2)
        · rw [if_pos h1]
          by_cases h2 : ((p - 2) + 1) * (a.ebSize - a.minIo * 2) ≤ i
          · rw [if_pos ⟨h2, h1.2⟩]
          · rw [if_neg (fun hc => h2 hc.1), if_pos ⟨h1.1, by omega⟩]
            have hj : i - (p - 2) * (a.ebSize - a.minIo * 2) <
                a.ebSize - a.minIo * 2 := by omega
            have hcp := @chunk_padded_getD a P (p - 2) _ hj
            rw [show (p - 2) * (a.ebSize - a.minIo * 2) +
                (i - (p - 2) * (a.ebSize - a.minIo * 2)) = i from by omega] at hcp
            exact hcp
        · rw [if_neg h1, if_neg (fun hc => h1 ⟨by omega, hc.2⟩),
            if_neg (by intro hc; exact h1 ⟨hc.1, by omega⟩)]
      · -- erased trailing PEB: empty, skipped
        rw [if_neg (by omega), if_neg (by omega)] at hdr
        rw [extract_go_skip hdr (by
          show 0xFFFFFFFF ≠ a.volId
          omega)]
        rw [hstep, ihm (p + 1) out (by omega)]
        have e : min (p + 1 - 2) a.volLebs = min (p - 2) a.volLebs := by omega
        simp only [e]

theorem mkImage_eq {a : GenArgs} {seq : Nat} {P : List Nat} {n : Nat}
    (hu : a.ubi = true) (h64 : 64 ≤ a.minIo)
    (hfit : a.minIo * 2 + 22016 ≤ a.ebSize)
    (hname : (a.volName.getD []).length ≤ 128)
    (hP : P.length ≤ a.volLebs * (a.ebSize - a.minIo * 2))
    (hP0 : 0 < P.length) :
    mkImage a seq P n = some (imageBytes a seq P n) := by
  unfold mkImage
  rw [if_neg (by omega)]
  have h := @mkBlocks_spec a seq P hu h64 hfit hname hP n 0
  rw [show ((0 : Nat) - 2) * (a.ebSize - a.minIo * 2) = 0 from by omega] at h
  rw [List.drop_zero, Nat.sub_zero] at h
  simp only [Nat.zero_add] at h
  rw [h]
  unfold imageBytes imageBlocks
  rfl

theorem imageBytes_length {a : GenArgs} {seq : Nat} {P : List Nat} {n : Nat}
    (h64 : 64 ≤ a.minIo) (hfit : a.minIo * 2 + 22016 ≤ a.ebSize)
    (hname : (a.volName.getD []).length ≤ 128) :
    (imageBytes a seq P n).length = n * a.ebSize := by
  unfold imageBytes
  rw [length_flatten_uniform (imageBlocks_mem_length h64 hfit hname)]
  simp [imageBlocks]

theorem run_extractor_image {a : GenArgs} {seq : Nat} {P : List Nat} {n : Nat}
    (h64 : 64 ≤ a.minIo) (hfit : a.minIo * 2 + 22016 ≤ a.ebSize)
    (hn127 : (a.volName.getD []).length ≤ 127) (heb32 : a.ebSize < 2 ^ 32)
    (hvolid : a.volId < 128) (hn32 : n < 2 ^ 32) (hn2 : a.volLebs + 2 ≤ n)
    (hne : a.volName.getD [] ≠ []) (hz : ∀ x ∈ a.volName.getD [], x ≠ 0)
    (sb : Bool) :
    run_extractor a.ebSize (a.volName.getD []) sb (imageBytes a seq P n) =
      some (fun i =>
        if i < a.volLebs * (a.ebSize - a.minIo * 2) then expectedOut P i
        else 0) := by
  have hname : (a.volName.getD []).length ≤ 128 := by omega
  have hlen := @imageBytes_length a seq P n h64 hfit hname
  have hdiv : (imageBytes a seq P n).length / a.ebSize = n := by
    rw [hlen, Nat.mul_div_cancel _ (by omega)]
  unfold run_extractor
  rw [if_neg (by
    rw [hlen]
    push_neg
    constructor
    · have : 0 < n := by omega
      have : 0 < a.ebSize := by omega
      positivity
    · exact Nat.mul_mod_left n a.ebSize)]
  rw [hdiv]
  have hfl := @find_layout_image a seq P n h64 hfit hname heb32 hvolid hn32
    (by omega) (n - 1)
  rw [show n - 1 + 1 = n from by omega] at hfl
  rw [hfl]
  have hfv := @find_vol_image a seq P n h64 hfit hn127 hvolid (by omega) hne hz
  simp only [UBI_MAX_VOLUMES, hfv]
  have hex := @extract_go_image a seq P n h64 hfit hname heb32 hvolid hn32 hn2
    sb n 0 (fun _ => 0) (by omega)
  rw [Nat.zero_mul] at hex
  rw [hex]
  congr 1
  funext i
  rw [show min ((0 : Nat) - 2) a.volLebs = 0 from by omega, Nat.zero_mul]
  by_cases hi : i < a.volLebs * (a.ebSize - a.minIo * 2)
  · rw [if_pos ⟨by omega, hi⟩, if_pos hi]
  · rw [if_neg (by omega), if_neg hi]

/-! ## Claim C1 -/

/-- C1: writer/extractor round-trip.  For every payload `P` written in
UBI mode under volume name `V` (with `vol_lebs` large enough that `P`
fits, and sane geometry), running the extractor on the resulting image
with name `V` succeeds and produces an output file whose first
`P.length` bytes equal `P`; nothing is asserted about later bytes. -/
theorem writer_extractor_roundtrip {a : GenArgs} {seq n : Nat}
    {P V : List Nat} (hu : a.ubi = true) (hv : a.volName = some V)
    (h64 : 64 ≤ a.minIo) (hfit : a.minIo * 2 + 22016 ≤ a.ebSize)
    (heb32 : a.ebSize < 2 ^ 32) (hvolid : a.volId < 128) (hn32 : n < 2 ^ 32)
    (hname : V.length ≤ 127) (hne : V ≠ []) (hz : ∀ x ∈ V, x ≠ 0)
    (hP0 : 0 < P.length)
    (hfits : P.length ≤ a.volLebs * (a.ebSize - a.minIo * 2))
    (hwin : a.volLebs + 2 ≤ n) (sb : Bool) :
    ∃ img out,
      mkImage a seq P n = some img ∧
      run_extractor a.ebSize V sb img = some out ∧
      ∀ i < P.length, out i = P.getD i 0 := by
  have hgetD : a.volName.getD [] = V := by rw [hv]; rfl
  refine ⟨imageBytes a seq P n,
    fun i => if i < a.volLebs * (a.ebSize - a.minIo * 2) then expectedOut P i else 0,
    mkImage_eq hu h64 hfit (by rw [hgetD]; omega) hfits hP0, ?_, ?_⟩
  · have h := @run_extractor_image a seq P n h64 hfit (by rw [hgetD]; exact hname)
      heb32 hvolid hn32 hwin (by rw [hgetD]; exact hne)
      (by rw [hgetD]; exact hz) sb
    rw [hgetD] at h
    exact h
  · intro i hi
    have hlt : i < a.volLebs * (a.ebSize - a.minIo * 2) := by omega
    show (if i < a.volLebs * (a.ebSize - a.minIo * 2) then expectedOut P i else 0) =
      P.getD i 0
    rw [if_pos hlt]
    unfold expectedOut
    rw [if_pos hi]

theorem writer_extractor_roundtrip_witness :
    (wArgs.ubi = true ∧ wArgs.volName = some [114] ∧ 64 ≤ wArgs.minIo ∧
      wArgs.minIo * 2 + 22016 ≤ wArgs.ebSize ∧ wArgs.ebSize < 2 ^ 32 ∧
      wArgs.volId < 128 ∧ (3 : Nat) < 2 ^ 32 ∧
      ([114] : List Nat).length ≤ 127 ∧ ([114] : List Nat) ≠ [] ∧
      (∀ x ∈ ([114] : List Nat), x ≠ 0) ∧
      (0 : Nat) < ([1, 2, 3] : List Nat).length ∧
      ([1, 2, 3] : List Nat).length ≤ wArgs.volLebs * (wArgs.ebSize - wArgs.minIo * 2) ∧
      wArgs.volLebs + 2 ≤ 3) ∧
    ∃ img out,
      mkImage wArgs 7 [1, 2, 3] 3 = some img ∧
      run_extractor wArgs.ebSize [114] false img = some out ∧
      ∀ i < ([1, 2, 3] : List Nat).length, out i = ([1, 2, 3] : List Nat).getD i 0 :=
  ⟨by decide,
    writer_extractor_roundtrip (by decide) (by decide) (by decide) (by decide)
      (by decide) (by decide) (by decide) (by decide) (by decide) (by decide)
      (by decide) (by decide) (by decide) false⟩

/-! ## Claims C2 and C3 -/

theorem slice_dataBlock_chunk {a : GenArgs} {seq blk : Nat} {chunk : List Nat}
    (h64 : 64 ≤ a.minIo) :
    slice (dataBlock a seq blk chunk) (a.minIo * 2) chunk.length = chunk := by
  unfold dataBlock
  rw [List.append_assoc (ecHdrBytes a.minIo seq ++ List.replicate (a.minIo - 64) 0xFF ++
    vidHdrBytes UBI_VID_DYNAMIC 0 a.volId (blk - 2) ++ List.replicate (a.minIo - 64) 0xFF)]
  rw [slice_append_right _ chunk.length (by
    simp [length_ecHdrBytes, length_vidHdrBytes]
    omega)]
  have h2 : a.minIo * 2 - ((ecHdrBytes a.minIo seq ++
      List.replicate (a.minIo - 64) 0xFF ++
      vidHdrBytes UBI_VID_DYNAMIC 0 a.volId (blk - 2) ++
      List.replicate (a.minIo - 64) 0xFF)).length = 0 := by
    simp [length_ecHdrBytes, length_vidHdrBytes]
    omega
  rw [h2]
  exact slice_take_prefix _

theorem vtblRecBytes_crc_ok {body : List Nat} (h : body.length = 168) :
    decBe (slice (vtblRecBytes body) 168 4) =
      mtd_crc32 UBI_CRC32_INIT (slice (vtblRecBytes body) 0 168) := by
  rw [slice_recBytes_crc h, slice_recBytes_body h, decBe_encBe32 (mtd_crc32_init_lt _)]

theorem ecHdrBytes_crc_ok (m s : Nat) :
    decBe (slice (ecHdrBytes m s) 60 4) =
      mtd_crc32 UBI_CRC32_INIT (slice (ecHdrBytes m s) 0 60) := by
  rw [slice_ec_crc, slice_ec_body, decBe_encBe32 (mtd_crc32_init_lt _)]

theorem vidHdrBytes_crc_ok (a b c d : Nat) :
    decBe (slice (vidHdrBytes a b c d) 60 4) =
      mtd_crc32 UBI_CRC32_INIT (slice (vidHdrBytes a b c d) 0 60) := by
  rw [slice_vid_crc, slice_vid_body, decBe_encBe32 (mtd_crc32_init_lt _)]

/-- The three `blk_no` regimes of `eb_gen_data`, in full. -/
theorem eb_gen_data_regimes_spec {a : GenArgs} {seq blkNo : Nat}
    {src : Source} {dl : Nat} (hu : a.ubi = true) (h64 : 64 ≤ a.minIo)
    (hfit : a.minIo * 2 + 22016 ≤ a.ebSize)
    (hname : (a.volName.getD []).length ≤ 127) :
    (blkNo < 2 →
      ∃ buf, eb_gen_data a seq blkNo src dl =
          some (buf, a.minIo * 2 + 128 * UBI_VTBL_RECORD_SIZE, src, dl) ∧
        slice buf a.minIo 64 =
          vidHdrBytes UBI_LAYOUT_VOLUME_TYPE UBI_LAYOUT_VOLUME_COMPAT
            UBI_LAYOUT_VOLUME_ID blkNo ∧
        ∀ i < 128, slice buf (a.minIo * 2 + 172 * i) 172 =
          vtblRecBytes (if i = a.volId then
            vtblRecBody a.volLebs (a.volName.getD []) else vtblRecZero)) ∧
    (2 ≤ blkNo → blkNo < a.volLebs + 2 →
      ∀ buf len src' dl',
        eb_gen_data a seq blkNo src dl = some (buf, len, src', dl') →
        ∃ chunk,
          data_read a src (min dl (a.ebSize - a.minIo * 2)) = some (chunk, src') ∧
          chunk.length ≤ a.ebSize - a.minIo * 2 ∧
          slice buf a.minIo 64 = vidHdrBytes UBI_VID_DYNAMIC 0 a.volId (blkNo - 2) ∧
          slice buf (a.minIo * 2) chunk.length = chunk ∧
          len = a.minIo * 2 + chunk.length ∧ dl' = dl - chunk.length) ∧
    (a.volLebs + 2 ≤ blkNo →
      eb_gen_data a seq blkNo src dl =
        some (ecHdrBytes a.minIo seq ++ List.replicate (a.ebSize - 64) 0xFF,
          UBI_EC_HDR_SIZE, src, dl)) ∧
    (∀ buf len src' dl',
      eb_gen_data a seq blkNo src dl = some (buf, len, src', dl') →
      slice buf 0 64 = ecHdrBytes a.minIo seq) := by
  have hname128 : (a.volName.getD []).length ≤ 128 := by omega
  refine ⟨?_, ?_, ?_, ?_⟩
  · intro hblk
    refine ⟨layoutBlock a seq blkNo, eb_gen_data_layout hu h64 hfit hblk hname128, ?_, ?_⟩
    · exact slice_layoutBlock_vid h64
    · intro i hi
      rw [slice_layoutBlock_rec h64 hname128 hi]
      rfl
  · intro hblk1 hblk2 buf len src' dl' h
    cases hread : data_read a src (min dl (a.ebSize - a.minIo * 2)) with
    | none =>
      rw [eb_gen_data_data_err hu hblk1 hblk2 hread] at h
      exact absurd h (by simp)
    | some cs =>
      obtain ⟨chunk, src1⟩ := cs
      rw [eb_gen_data_data hu h64 hfit hblk1 hblk2 hread] at h
      have h' := Option.some.inj h
      injection h' with h1 h'
      injection h' with h2 h'
      injection h' with h3 h4
      refine ⟨chunk, ?_,
        le_trans (data_read_length_le hread) (min_le_right _ _), ?_, ?_, ?_, ?_⟩
      · exact congrArg (fun q => some (chunk, q)) h3
      · rw [← h1]
        exact slice_dataBlock_vid h64
      · rw [← h1]
        exact slice_dataBlock_chunk h64
      · exact h2.symm
      · exact h4.symm
  · intro hblk
    rw [eb_gen_data_trailing hu hblk]
    rfl
  · intro buf len src' dl' h
    rcases Nat.lt_or_ge blkNo 2 with hb | hb
    · rw [eb_gen_data_layout hu h64 hfit hb hname128] at h
      injection Option.some.inj h with h1 h'
      rw [← h1]
      exact slice_layoutBlock_ec
    · rcases Nat.lt_or_ge blkNo (a.volLebs + 2) with hb2 | hb2
      · cases hread : data_read a src (min dl (a.ebSize - a.minIo * 2)) with
        | none =>
          rw [eb_gen_data_data_err hu hb hb2 hread] at h
          exact absurd h (by simp)
        | some cs =>
          obtain ⟨chunk, src1⟩ := cs
          rw [eb_gen_data_data hu h64 hfit hb hb2 hread] at h
          injection Option.some.inj h with h1 h'
          rw [← h1]
          exact slice_dataBlock_ec
      · rw [eb_gen_data_trailing hu hb2] at h
        injection Option.some.inj h with h1 h'
        rw [← h1]
        exact slice_trailingBlock_ec

/-- C2: `eb_gen_data` in UBI mode is determined by `blk_no` in three
regimes.  For `blk_no < 2`: a layout VID header (`vol_id` the layout
volume's, `lnum = blk_no`), the 128-record volume table at
`data_offset` where slot `vol_id` carries `reserved_pebs = vol_lebs`,
`alignment = 1`, dynamic type and the volume name while every other
slot is zeroed, each record CRC-sealed, and `data_len = data_offset +
128 * UBI_VTBL_RECORD_SIZE`.  For `2 ≤ blk_no < vol_lebs + 2`: a
dynamic VID header with `vol_id = args.vol_id`, `lnum = blk_no - 2`,
up to `leb_size` payload bytes at `data_offset` and `data_len =
data_offset + bytes_read`.  For `blk_no ≥ vol_lebs + 2`: only the EC
header, with `data_len = UBI_EC_HDR_SIZE`.  In every regime the block
starts with the EC header. -/
theorem eb_gen_data_three_regimes {a : GenArgs} {seq blkNo : Nat}
    {src : Source} {dl : Nat} (hu : a.ubi = true) (h64 : 64 ≤ a.minIo)
    (hfit : a.minIo * 2 + 22016 ≤ a.ebSize)
    (hname : (a.volName.getD []).length ≤ 127) :
    (blkNo < 2 →
      ∃ buf, eb_gen_data a seq blkNo src dl =
          some (buf, a.minIo * 2 + 128 * UBI_VTBL_RECORD_SIZE, src, dl) ∧
        slice buf a.minIo 64 =
          vidHdrBytes UBI_LAYOUT_VOLUME_TYPE UBI_LAYOUT_VOLUME_COMPAT
            UBI_LAYOUT_VOLUME_ID blkNo ∧
        ∀ i < 128, slice buf (a.minIo * 2 + 172 * i) 172 =
          vtblRecBytes (if i = a.volId then
            vtblRecBody a.volLebs (a.volName.getD []) else vtblRecZero)) ∧
    (2 ≤ blkNo → blkNo < a.volLebs + 2 →
      ∀ buf len src' dl',
        eb_gen_data a seq blkNo src dl = some (buf, len, src', dl') →
        ∃ chunk,
          data_read a src (min dl (a.ebSize - a.minIo * 2)) = some (chunk, src') ∧
          chunk.length ≤ a.ebSize - a.minIo * 2 ∧
          slice buf a.minIo 64 = vidHdrBytes UBI_VID_DYNAMIC 0 a.volId (blkNo - 2) ∧
          slice buf (a.minIo * 2) chunk.length = chunk ∧
          len = a.minIo * 2 + chunk.length ∧ dl' = dl - chunk.length) ∧
    (a.volLebs + 2 ≤ blkNo →
      eb_gen_data a seq blkNo src dl =
        some (ecHdrBytes a.minIo seq ++ List.replicate (a.ebSize - 64) 0xFF,
          UBI_EC_HDR_SIZE, src, dl)) ∧
    (∀ buf len src' dl',
      eb_gen_data a seq blkNo src dl = some (buf, len, src', dl') →
      slice buf 0 64 = ecHdrBytes a.minIo seq) :=
  eb_gen_data_regimes_spec hu h64 hfit hname

theorem eb_gen_data_three_regimes_witness :
    (wArgs.ubi = true ∧ 64 ≤ wArgs.minIo ∧ wArgs.minIo * 2 + 22016 ≤ wArgs.ebSize ∧
      (wArgs.volName.getD []).length ≤ 127) ∧
    ((3 < 2 →
      ∃ buf, eb_gen_data wArgs 7 3 ⟨some [5]⟩ 1 =
          some (buf, wArgs.minIo * 2 + 128 * UBI_VTBL_RECORD_SIZE, ⟨some [5]⟩, 1) ∧
        slice buf wArgs.minIo 64 =
          vidHdrBytes UBI_LAYOUT_VOLUME_TYPE UBI_LAYOUT_VOLUME_COMPAT
            UBI_LAYOUT_VOLUME_ID 3 ∧
        ∀ i < 128, slice buf (wArgs.minIo * 2 + 172 * i) 172 =
          vtblRecBytes (if i = wArgs.volId then
            vtblRecBody wArgs.volLebs (wArgs.volName.getD []) else vtblRecZero)) ∧
    (2 ≤ 3 → 3 < wArgs.volLebs + 2 →
      ∀ buf len src' dl',
        eb_gen_data wArgs 7 3 ⟨some [5]⟩ 1 = some (buf, len, src', dl') →
        ∃ chunk,
          data_read wArgs ⟨some [5]⟩ (min 1 (wArgs.ebSize - wArgs.minIo * 2)) =
            some (chunk, src') ∧
          chunk.length ≤ wArgs.ebSize - wArgs.minIo * 2 ∧
          slice buf wArgs.minIo 64 =
            vidHdrBytes UBI_VID_DYNAMIC 0 wArgs.volId (3 - 2) ∧
          slice buf (wArgs.minIo * 2) chunk.length = chunk ∧
          len = wArgs.minIo * 2 + chunk.length ∧ dl' = 1 - chunk.length) ∧
    (wArgs.volLebs + 2 ≤ 3 →
      eb_gen_data wArgs 7 3 ⟨some [5]⟩ 1 =
        some (ecHdrBytes wArgs.minIo 7 ++ List.replicate (wArgs.ebSize - 64) 0xFF,
          UBI_EC_HDR_SIZE, ⟨some [5]⟩, 1)) ∧
    (∀ buf len src' dl',
      eb_gen_data wArgs 7 3 ⟨some [5]⟩ 1 = some (buf, len, src', dl') →
      slice buf 0 64 = ecHdrBytes wArgs.minIo 7)) :=
  ⟨by decide,
    eb_gen_data_three_regimes (by decide) (by decide) (by decide) (by decide)⟩

/-- C3: every EC header, VID header and volume-table record emitted by
`eb_gen_data` stores in its CRC field exactly the CRC-32 recomputed
over the header's bytes minus the trailing CRC field, with seed
`UBI_CRC32_INIT`. -/
theorem emitted_headers_crc {a : GenArgs} {seq blkNo : Nat} {src src' : Source}
    {dl : Nat} {buf : List Nat} {len dl' : Nat} (hu : a.ubi = true)
    (h64 : 64 ≤ a.minIo) (hfit : a.minIo * 2 + 22016 ≤ a.ebSize)
    (hname : (a.volName.getD []).length ≤ 127)
    (h : eb_gen_data a seq blkNo src dl = some (buf, len, src', dl')) :
    (decBe (slice (slice buf 0 64) 60 4) =
      mtd_crc32 UBI_CRC32_INIT (slice (slice buf 0 64) 0 60)) ∧
    (blkNo < a.volLebs + 2 →
      decBe (slice (slice buf a.minIo 64) 60 4) =
        mtd_crc32 UBI_CRC32_INIT (slice (slice buf a.minIo 64) 0 60)) ∧
    (blkNo < 2 → ∀ i < 128,
      decBe (slice (slice buf (a.minIo * 2 + 172 * i) 172) 168 4) =
        mtd_crc32 UBI_CRC32_INIT
          (slice (slice buf (a.minIo * 2 + 172 * i) 172) 0 168)) := by
  have hname128 : (a.volName.getD []).length ≤ 128 := by omega
  obtain ⟨hlay, hdat, htrail, hec⟩ :=
    @eb_gen_data_regimes_spec a seq blkNo src dl hu h64 hfit hname
  refine ⟨?_, ?_, ?_⟩
  · rw [hec buf len src' dl' h]
    exact ecHdrBytes_crc_ok ..
  · intro hblk
    rcases Nat.lt_or_ge blkNo 2 with hb | hb
    · obtain ⟨b2, hgen, hvid, _⟩ := hlay hb
      rw [hgen] at h
      injection Option.some.inj h with h1 h'
      rw [← h1, hvid]
      exact vidHdrBytes_crc_ok ..
    · obtain ⟨chunk, _, _, hvid, _, _, _⟩ := hdat hb hblk buf len src' dl' h
      rw [hvid]
      exact vidHdrBytes_crc_ok ..
  · intro hb i hi
    obtain ⟨b2, hgen, _, hrec⟩ := hlay hb
    rw [hgen] at h
    injection Option.some.inj h with h1 h'
    rw [← h1, hrec i hi]
    apply vtblRecBytes_crc_ok
    split
    · exact length_vtblRecBody hname128
    · exact length_vtblRecZero

theorem emitted_headers_crc_witness :
    (wArgs.ubi = true ∧ 64 ≤ wArgs.minIo ∧ wArgs.minIo * 2 + 22016 ≤ wArgs.ebSize ∧
      (wArgs.volName.getD []).length ≤ 127 ∧
      eb_gen_data wArgs 7 0 ⟨some [5]⟩ 1 =
        some (layoutBlock wArgs 7 0, wArgs.minIo * 2 + 22016, ⟨some [5]⟩, 1)) ∧
    ((decBe (slice (slice (layoutBlock wArgs 7 0) 0 64) 60 4) =
        mtd_crc32 UBI_CRC32_INIT (slice (slice (layoutBlock wArgs 7 0) 0 64) 0 60)) ∧
      (0 < wArgs.volLebs + 2 →
        decBe (slice (slice (layoutBlock wArgs 7 0) wArgs.minIo 64) 60 4) =
          mtd_crc32 UBI_CRC32_INIT
            (slice (slice (layoutBlock wArgs 7 0) wArgs.minIo 64) 0 60)) ∧
      (0 < 2 → ∀ i < 128,
        decBe (slice (slice (layoutBlock wArgs 7 0) (wArgs.minIo * 2 + 172 * i) 172) 168 4) =
          mtd_crc32 UBI_CRC32_INIT
            (slice (slice (layoutBlock wArgs 7 0) (wArgs.minIo * 2 + 172 * i) 172) 0 168))) :=
  ⟨⟨by decide, by decide, by decide, by decide,
    eb_gen_data_layout (by decide) (by decide) (by decide) (by decide) (by decide)⟩,
    @emitted_headers_crc wArgs 7 0 ⟨some [5]⟩ ⟨some [5]⟩ 1 (layoutBlock wArgs 7 0)
      (wArgs.minIo * 2 + 22016) 1 (by decide) (by decide) (by decide) (by decide)
      (eb_gen_data_layout (by decide) (by decide) (by decide) (by decide) (by decide))⟩

/-! ### C5: page-level semantics of a clean `eb_write` -/

theorem lt_ceil_div_iff_mul_lt {m d k : Nat} (hm : 0 < m) (hd : 0 < d) :
    k < (d + m - 1) / m ↔ k * m < d := by
  rw [Nat.lt_iff_add_one_le, Nat.le_div_iff_mul_le hm]
  have h1 : (k + 1) * m = k * m + m := Nat.succ_mul k m
  omega

theorem pagesLeft_step {dataLen minIo k : Nat} {clm : Bool} (hm : 0 < minIo)
    (hg : k * minIo < dataLen ∨ clm = true) :
    pagesLeft dataLen minIo k clm = pagesLeft dataLen minIo (k + 1) false + 1 := by
  unfold pagesLeft
  by_cases hk : k * minIo < dataLen
  · have hd : 0 < dataLen := by omega
    have hceil : k < (dataLen + minIo - 1) / minIo :=
      (lt_ceil_div_iff_mul_lt hm hd).mpr hk
    have hmul : (k + 1) * minIo = k * minIo + minIo := Nat.succ_mul k minIo
    by_cases hk1 : (k + 1) * minIo < dataLen
    · have hceil1 : k + 1 < (dataLen + minIo - 1) / minIo :=
        (lt_ceil_div_iff_mul_lt hm hd).mpr hk1
      rw [if_pos hk, if_pos hk1]
      omega
    · have hceil1 : ¬(k + 1 < (dataLen + minIo - 1) / minIo) := fun hlt =>
        hk1 ((lt_ceil_div_iff_mul_lt hm hd).mp hlt)
      rw [if_pos hk, if_neg hk1]
      simp only [Bool.false_eq_true, if_false]
      omega
  · have hclm : clm = true := by tauto
    have hk1 : ¬((k + 1) * minIo < dataLen) := by
      have hmul : (k + 1) * minIo = k * minIo + minIo := Nat.succ_mul k minIo
      omega
    rw [if_neg hk, if_neg hk1, hclm]
    simp

theorem eb_write_go_spec (minIo ebSize eb dataLen : Nat) (data : List Nat)
    (hm : 0 < minIo) :
    ∀ (f k : Nat) (clmF : Bool), pagesLeft dataLen minIo k clmF ≤ f →
    eb_write_go minIo ebSize (fun _ _ => false) eb dataLen data f (k * minIo) clmF =
      (true, (List.range' k (pagesLeft dataLen minIo k clmF)).map (fun j =>
        FlashOp.pageWrite eb (j * minIo)
          (if (slice data (j * minIo) minIo).all (fun b => b == 0xFF) then none
           else some (slice data (j * minIo) minIo))
          (if clmF = true ∧ j = k then some clean_marker else none))) := by
  intro f
  induction f with
  | zero =>
    intro k clmF h
    have h0 : pagesLeft dataLen minIo k clmF = 0 := Nat.le_zero.mp h
    rw [h0]
    simp [eb_write_go]
  | succ f ih =>
    intro k clmF h
    by_cases hg : k * minIo < dataLen ∨ clmF = true
    · have hstep := pagesLeft_step hm hg
      simp only [eb_write_go, if_pos hg]
      simp only [if_neg Bool.false_ne_true]
      rw [show k * minIo + minIo = (k + 1) * minIo from (Nat.succ_mul k minIo).symm]
      rw [ih (k + 1) false (by omega)]
      rw [hstep, List.range'_succ, List.map_cons]
      dsimp only
      refine congrArg (fun l => ((true : Bool), l)) ?_
      refine congrArg₂ List.cons ?_ ?_
      · refine congrArg (FlashOp.pageWrite eb (k * minIo) _) ?_
        simp
      · apply List.map_congr_left
        intro j hj
        have hj1 : k + 1 ≤ j := (List.mem_range'_1.mp hj).1
        refine congrArg (FlashOp.pageWrite eb (j * minIo) _) ?_
        have hne2 : ¬(clmF = true ∧ j = k) := by
          rintro ⟨h1, h2⟩
          omega
        simp [hne2]
    · have h0 : pagesLeft dataLen minIo k clmF = 0 := by
        unfold pagesLeft
        rw [if_neg (by tauto)]
        have : clmF = false := by
          cases clmF
          · rfl
          · exact absurd (Or.inr rfl) hg
        rw [this]
        simp
      rw [h0]
      simp only [eb_write_go, if_neg hg]
      simp

/-- **C5**: in the page-level write loop, for each page offset `0,
min_io_size, 2*min_io_size, ...` up to `data_len`, the main area is
programmed iff some byte of the page differs from `0xFF`; in clean-marker
mode the 8-byte JFFS2 marker goes to the OOB of the first page only,
regardless of the main area; and with `data_len = 0` and clean markers
disabled no page of the PEB is written at all. -/
theorem eb_write_page_semantics (minIo ebSize eb dataLen : Nat) (data : List Nat)
    (clm : Bool) (hm : 0 < minIo) :
    eb_write minIo ebSize (fun _ _ => false) eb dataLen data clm =
      (true, (List.range (numPages dataLen minIo clm)).map (fun j =>
        FlashOp.pageWrite eb (j * minIo)
          (if (slice data (j * minIo) minIo).all (fun b => b == 0xFF) then none
           else some (slice data (j * minIo) minIo))
          (if clm = true ∧ j = 0 then some clean_marker else none))) := by
  unfold eb_write
  by_cases h0 : dataLen = 0 ∧ clm = false
  · rw [if_pos h0]
    obtain ⟨h1, h2⟩ := h0
    subst h1
    subst h2
    simp [numPages]
  · rw [if_neg h0]
    have hfuel : pagesLeft dataLen minIo 0 clm ≤ dataLen / minIo + 2 := by
      unfold pagesLeft
      split
      · have ha : (dataLen + minIo - 1) / minIo ≤ (dataLen + minIo) / minIo :=
          Nat.div_le_div_right (by omega)
        have hb : (dataLen + minIo) / minIo = dataLen / minIo + 1 :=
          Nat.add_div_right _ hm
        calc (dataLen + minIo - 1) / minIo - 0
            = (dataLen + minIo - 1) / minIo := Nat.sub_zero _
          _ ≤ (dataLen + minIo) / minIo := ha
          _ = dataLen / minIo + 1 := hb
          _ ≤ dataLen / minIo + 2 := Nat.le_succ _
      · split
        · exact Nat.succ_le_succ (Nat.zero_le _)
        · exact Nat.zero_le _
    have hspec := eb_write_go_spec minIo ebSize eb dataLen data hm
      (dataLen / minIo + 2) 0 clm hfuel
    rw [Nat.zero_mul] at hspec
    have hnum : pagesLeft dataLen minIo 0 clm = numPages dataLen minIo clm := by
      unfold pagesLeft numPages
      by_cases hd : dataLen = 0
      · rw [if_neg (by omega), if_pos hd]
      · rw [if_pos (by omega), if_neg hd, Nat.sub_zero]
    rw [hnum] at hspec
    rw [hspec, List.range_eq_range']

theorem eb_write_page_semantics_witness :
    0 < 2 ∧
    eb_write 2 8 (fun _ _ => false) 0 5 [255, 255, 1, 2, 255] true =
      (true, (List.range (numPages 5 2 true)).map (fun j =>
        FlashOp.pageWrite 0 (j * 2)
          (if (slice [255, 255, 1, 2, 255] (j * 2) 2).all (fun b => b == 0xFF) then none
           else some (slice [255, 255, 1, 2, 255] (j * 2) 2))
          (if true = true ∧ j = 0 then some clean_marker else none))) :=
  ⟨by decide, eb_write_page_semantics 2 8 0 5 [255, 255, 1, 2, 255] true (by decide)⟩

/-! ### C4: failure handling, retry pass, exhaustion -/

theorem eb_write_go_fail {minIo ebSize : Nat} {wfail : Nat → Nat → Bool}
    {eb dataLen : Nat} {data : List Nat} :
    ∀ (f pa : Nat) (clm : Bool) (ops : List FlashOp),
    eb_write_go minIo ebSize wfail eb dataLen data f pa clm = (false, ops) →
    FlashOp.erase eb ∈ ops ∧ (FlashOp.markBad eb ∈ ops ↔ dataLen % ebSize = 0) := by
  intro f
  induction f with
  | zero =>
    intro pa clm ops h
    simp [eb_write_go] at h
  | succ f ih =>
    intro pa clm ops h
    simp only [eb_write_go] at h
    by_cases hg : pa < dataLen ∨ clm = true
    · rw [if_pos hg] at h
      by_cases hw : wfail eb pa = true
      · rw [if_pos hw] at h
        have h2 := congrArg Prod.snd h
        simp only at h2
        rw [← h2]
        constructor
        · simp
        · by_cases hmod : dataLen % ebSize = 0
          · simp [hmod]
          · simp [hmod]
      · rw [if_neg hw] at h
        cases hgo : eb_write_go minIo ebSize wfail eb dataLen data f (pa + minIo) false with
        | mk b l =>
          rw [hgo] at h
          have h1 : b = false := congrArg Prod.fst h
          have h2 := congrArg Prod.snd h
          simp only at h2
          have hih := ih (pa + minIo) false l (by rw [hgo, h1])
          rw [← h2]
          constructor
          · exact List.mem_cons_of_mem _ hih.1
          · rw [List.mem_cons]
            simp only [reduceCtorEq, false_or]
            exact hih.2
    · rw [if_neg hg] at h
      simp at h

theorem eb_write_fail {minIo ebSize : Nat} {wfail : Nat → Nat → Bool}
    {eb dataLen : Nat} {data : List Nat} {clm : Bool} {ops : List FlashOp}
    (h : eb_write minIo ebSize wfail eb dataLen data clm = (false, ops)) :
    FlashOp.erase eb ∈ ops ∧ (FlashOp.markBad eb ∈ ops ↔ dataLen % ebSize = 0) := by
  unfold eb_write at h
  by_cases h0 : dataLen = 0 ∧ clm = false
  · rw [if_pos h0] at h
    simp at h
  · rw [if_neg h0] at h
    exact eb_write_go_fail _ 0 clm ops h

theorem retry_go_head {minIo ebSize : Nat} {wfail : Nat → Nat → Bool} {clm : Bool}
    {buf : List Nat} {dlen blk : Nat} :
    ∀ (f addr : Nat) (x : Attempt),
    (retry_go minIo ebSize wfail clm buf dlen blk f addr).2.head? = some x →
    x.addr = addr ∧ x.blk = blk ∧ x.buf = buf ∧ x.dataLen = dlen := by
  intro f addr x h
  match f with
  | 0 =>
    simp [retry_go] at h
  | f + 1 =>
    simp only [retry_go] at h
    by_cases hw : (eb_write minIo ebSize wfail addr dlen buf clm).1 = true
    · rw [if_pos hw] at h
      simp only [List.head?_cons, Option.some.injEq] at h
      rw [← h]
      exact ⟨rfl, rfl, rfl, rfl⟩
    · rw [if_neg hw] at h
      simp only [List.head?_cons, Option.some.injEq] at h
      rw [← h]
      exact ⟨rfl, rfl, rfl, rfl⟩

theorem retry_go_chain {minIo ebSize : Nat} {wfail : Nat → Nat → Bool} {clm : Bool}
    {buf : List Nat} {dlen blk : Nat} :
    ∀ (f addr : Nat),
    List.Chain' Radj (retry_go minIo ebSize wfail clm buf dlen blk f addr).2 := by
  intro f
  induction f with
  | zero =>
    intro addr
    simp [retry_go]
  | succ f ih =>
    intro addr
    simp only [retry_go]
    by_cases hw : (eb_write minIo ebSize wfail addr dlen buf clm).1 = true
    · rw [if_pos hw]
      exact List.chain'_singleton _
    · rw [if_neg hw]
      apply List.chain'_cons'.mpr
      refine ⟨?_, ih (addr + 1)⟩
      intro y hy
      intro hfail
      have hh := retry_go_head f (addr + 1) y hy
      exact ⟨hh.1, hh.2.1.symm ▸ rfl, hh.2.2.1.symm ▸ rfl, hh.2.2.2.symm ▸ rfl⟩

theorem retry_go_last_ok {minIo ebSize : Nat} {wfail : Nat → Nat → Bool} {clm : Bool}
    {buf : List Nat} {dlen blk : Nat} :
    ∀ (f addr k : Nat),
    (retry_go minIo ebSize wfail clm buf dlen blk f addr).1 = some k →
    ∀ x, (retry_go minIo ebSize wfail clm buf dlen blk f addr).2.getLast? = some x →
      x.ok = true := by
  intro f
  induction f with
  | zero =>
    intro addr k h
    simp [retry_go] at h
  | succ f ih =>
    intro addr k h x hx
    simp only [retry_go] at h hx
    by_cases hw : (eb_write minIo ebSize wfail addr dlen buf clm).1 = true
    · rw [if_pos hw] at hx
      simp only [List.getLast?_singleton, Option.some.injEq] at hx
      rw [← hx]
    · rw [if_neg hw] at h hx
      simp only at h
      cases hr : (retry_go minIo ebSize wfail clm buf dlen blk f (addr + 1)).1 with
      | none =>
        rw [hr] at h
        simp at h
      | some k2 =>
        cases hl : (retry_go minIo ebSize wfail clm buf dlen blk f (addr + 1)).2 with
        | nil =>
          have : (retry_go minIo ebSize wfail clm buf dlen blk f (addr + 1)) =
              (some k2, []) := by
            rw [← hr, ← hl]
          match f with
          | 0 => simp [retry_go] at this
          | f2 + 1 =>
            simp only [retry_go] at this
            by_cases hw2 : (eb_write minIo ebSize wfail (addr + 1) dlen buf clm).1 = true
            · rw [if_pos hw2] at this
              have := congrArg Prod.snd this
              simp at this
            · rw [if_neg hw2] at this
              have := congrArg Prod.snd this
              simp at this
        | cons z zs =>
          rw [hl] at hx
          rw [List.getLast?_cons_cons] at hx
          have := ih (addr + 1) k2 hr x
          rw [hl] at this
          exact this hx

theorem write_loop_chain {a : GenArgs} {seq : Nat} {wfail : Nat → Nat → Bool}
    {windowPebs : Nat} :
    ∀ (fuel addr blkNo : Nat) (src : Source) (dl : Nat),
    List.Chain' Radj (write_loop_go a seq wfail windowPebs fuel addr blkNo src dl).2.1 := by
  intro fuel
  induction fuel with
  | zero =>
    intro addr blkNo src dl
    simp [write_loop_go]
  | succ f ih =>
    intro addr blkNo src dl
    simp only [write_loop_go]
    split
    · cases hgen : eb_gen_data a seq blkNo src dl with
      | none => simp
      | some q =>
        obtain ⟨buf, dlen, src2, dl2⟩ := q
        cases hretry : retry_go a.minIo a.ebSize wfail a.clm buf dlen blkNo
            (windowPebs - addr) addr with
        | mk ro atts =>
          cases ro with
          | none =>
            dsimp only
            rw [hretry]
            dsimp only
            have hc := @retry_go_chain a.minIo a.ebSize wfail a.clm buf dlen blkNo
              (windowPebs - addr) addr
            rw [hretry] at hc
            exact hc
          | some k =>
            dsimp only
            rw [hretry]
            dsimp only
            rw [List.chain'_append]
            refine ⟨?_, ih (addr + k + 1) (blkNo + 1) src2 dl2, ?_⟩
            · have hc := @retry_go_chain a.minIo a.ebSize wfail a.clm buf dlen blkNo
                (windowPebs - addr) addr
              rw [hretry] at hc
              exact hc
            · intro x hx y hy
              intro hfail
              have hfst : (retry_go a.minIo a.ebSize wfail a.clm buf dlen blkNo
                  (windowPebs - addr) addr).1 = some k := by
                rw [hretry]
              have hlast : (retry_go a.minIo a.ebSize wfail a.clm buf dlen blkNo
                  (windowPebs - addr) addr).2.getLast? = some x := by
                rw [hretry]
                exact hx
              have hok := retry_go_last_ok (windowPebs - addr) addr k hfst x hlast
              rw [hok] at hfail
              exact absurd hfail (by simp)
    · simp

/-- Shape of `runWriter` when the write loop actually runs. -/
theorem runWriter_eq_of_not_skip {a : GenArgs} {seq : Nat} {wfail : Nat → Nat → Bool}
    {windowPebs imageSize : Nat} {src0 : Source}
    (h : ¬(imageSize = 0 ∧ a.stdIn = false ∧ a.ubi = false)) :
    runWriter a seq wfail windowPebs imageSize src0 =
      ⟨if (write_loop_go a seq wfail windowPebs windowPebs 0 0 src0
            (if imageSize = 0 then UNLIMITED else imageSize)).1 = 0 ∨ imageSize = 0
        then none else some "data only partially written due to error",
       (write_loop_go a seq wfail windowPebs windowPebs 0 0 src0
          (if imageSize = 0 then UNLIMITED else imageSize)).1,
       (write_loop_go a seq wfail windowPebs windowPebs 0 0 src0
          (if imageSize = 0 then UNLIMITED else imageSize)).2.1,
       (write_loop_go a seq wfail windowPebs windowPebs 0 0 src0
          (if imageSize = 0 then UNLIMITED else imageSize)).2.2⟩ := by
  unfold runWriter
  rw [if_neg h]

/-- **C4**: whenever a page write to a PEB fails, `eb_write`'s trace
erases that PEB and marks it bad exactly when `data_len` is a multiple of
`eb_size`; across the whole run, every failed attempt is followed (when
anything follows) by a retry of the same generated buffer — same
`blk_no`, same `data_len` — at the next PEB address; and if the window is
exhausted with payload still undelivered (`data_left != 0` though
`image_size != 0`), the run dies as partially written. -/
theorem write_failure_recovery (a : GenArgs) (seq : Nat) (wfail : Nat → Nat → Bool)
    (windowPebs imageSize : Nat) (src0 : Source) :
    (∀ (minIo ebSize eb dataLen : Nat) (data : List Nat) (clm : Bool)
        (ops : List FlashOp),
      eb_write minIo ebSize wfail eb dataLen data clm = (false, ops) →
        FlashOp.erase eb ∈ ops ∧ (FlashOp.markBad eb ∈ ops ↔ dataLen % ebSize = 0)) ∧
    List.Chain' Radj (runWriter a seq wfail windowPebs imageSize src0).attempts ∧
    (imageSize ≠ 0 → (runWriter a seq wfail windowPebs imageSize src0).dl ≠ 0 →
      (runWriter a seq wfail windowPebs imageSize src0).status =
        some "data only partially written due to error") := by
  refine ⟨fun minIo ebSize eb dataLen data clm ops h => eb_write_fail h, ?_, ?_⟩
  · by_cases hguard : imageSize = 0 ∧ a.stdIn = false ∧ a.ubi = false
    · rw [show runWriter a seq wfail windowPebs imageSize src0 = ⟨none, 0, [], false⟩ from by
        unfold runWriter; rw [if_pos hguard]]
      simp
    · rw [runWriter_eq_of_not_skip hguard]
      exact write_loop_chain windowPebs 0 0 src0 _
  · intro hi hd
    have hguard : ¬(imageSize = 0 ∧ a.stdIn = false ∧ a.ubi = false) := fun hh => hi hh.1
    rw [runWriter_eq_of_not_skip hguard] at hd ⊢
    dsimp only at hd ⊢
    rw [if_neg (by
      intro hor
      cases hor with
      | inl hl => exact hd hl
      | inr hr => exact hi hr)]

/-- **C7**: the writer run succeeds exactly when the final `data_left`
is zero or `image_size` was zero (payload optional); any failure carries
the message "data only partially written due to error". -/
theorem writer_exit_status (a : GenArgs) (seq : Nat) (wfail : Nat → Nat → Bool)
    (windowPebs imageSize : Nat) (src0 : Source) :
    ((runWriter a seq wfail windowPebs imageSize src0).status = none ↔
      (runWriter a seq wfail windowPebs imageSize src0).dl = 0 ∨ imageSize = 0) ∧
    ∀ msg, (runWriter a seq wfail windowPebs imageSize src0).status = some msg →
      msg = "data only partially written due to error" := by
  by_cases hguard : imageSize = 0 ∧ a.stdIn = false ∧ a.ubi = false
  · rw [show runWriter a seq wfail windowPebs imageSize src0 = ⟨none, 0, [], false⟩ from by
      unfold runWriter; rw [if_pos hguard]]
    constructor
    · simp
    · intro msg hmsg
      exact absurd hmsg (by simp)
  · rw [runWriter_eq_of_not_skip hguard]
    dsimp only
    constructor
    · by_cases hc : (write_loop_go a seq wfail windowPebs windowPebs 0 0 src0
          (if imageSize = 0 then UNLIMITED else imageSize)).1 = 0 ∨ imageSize = 0
      · rw [if_pos hc]
        simp [hc]
      · rw [if_neg hc]
        simp [hc]
    · intro msg hmsg
      by_cases hc : (write_loop_go a seq wfail windowPebs windowPebs 0 0 src0
          (if imageSize = 0 then UNLIMITED else imageSize)).1 = 0 ∨ imageSize = 0
      · rw [if_pos hc] at hmsg
        exact absurd hmsg (by simp)
      · rw [if_neg hc] at hmsg
        exact (Option.some.inj hmsg).symm

theorem write_failure_recovery_witness :
    (FlashOp.erase 5 ∈ failOpsW ∧ (FlashOp.markBad 5 ∈ failOpsW ↔ 2 % 2 = 0)) ∧
    List.Chain' Radj (runWriter cArgsW 0 wfailAll 1 3 srcW).attempts ∧
    (runWriter cArgsW 0 wfailAll 1 3 srcW).status =
      some "data only partially written due to error" :=
  ⟨(write_failure_recovery cArgsW 0 wfailAll 1 3 srcW).1 1 2 5 2 [7, 7] false failOpsW
      (by decide),
   (write_failure_recovery cArgsW 0 wfailAll 1 3 srcW).2.1,
   (write_failure_recovery cArgsW 0 wfailAll 1 3 srcW).2.2 (by decide) (by decide)⟩

theorem writer_exit_status_witness :
    ((runWriter cArgsW 0 wfailAll 1 3 srcW).status = none ↔
      (runWriter cArgsW 0 wfailAll 1 3 srcW).dl = 0 ∨ (3 : Nat) = 0) ∧
    "data only partially written due to error" =
      "data only partially written due to error" :=
  ⟨(writer_exit_status cArgsW 0 wfailAll 1 3 srcW).1,
   (writer_exit_status cArgsW 0 wfailAll 1 3 srcW).2
     "data only partially written due to error" (by decide)⟩

/-- **C6**: in UBI mode `tot_lebs = window_pebs - UBI_LAYOUT_VOLUME_EBS`;
the resolved volume size is `tot_lebs - 20` for argument 0, `tot_lebs - k`
for a negative argument `-k`, and the argument itself when positive; and
the run is rejected before any device operation unless
`0 <= vol_lebs <= tot_lebs`. -/
theorem vol_lebs_resolution (windowPebs : Nat) :
    tot_lebs windowPebs = (windowPebs : Int) - 2 ∧
    resolve_vol_lebs (tot_lebs windowPebs) 0 = tot_lebs windowPebs - 20 ∧
    (∀ k : Int, 0 < k →
      resolve_vol_lebs (tot_lebs windowPebs) (-k) = tot_lebs windowPebs - k) ∧
    (∀ v : Int, 0 < v → resolve_vol_lebs (tot_lebs windowPebs) v = v) ∧
    (∀ arg : Int, (vol_lebs_check (tot_lebs windowPebs) arg).isSome ↔
      0 ≤ resolve_vol_lebs (tot_lebs windowPebs) arg ∧
        resolve_vol_lebs (tot_lebs windowPebs) arg ≤ tot_lebs windowPebs) ∧
    (∀ (a : GenArgs) (seq : Nat) (wfail : Nat → Nat → Bool) (ibad : Nat → Bool)
        (imageSize : Nat) (volLebsArg : Int) (src0 : Source),
      a.ubi = true →
      vol_lebs_check (tot_lebs windowPebs) volLebsArg = none →
      runWriterFull a seq wfail ibad windowPebs imageSize volLebsArg src0 =
        ⟨GeomResult.die "volume LEBs doesn't fit into allocated blocks", [], []⟩) := by
  refine ⟨?_, ?_, ?_, ?_, ?_, ?_⟩
  · simp [tot_lebs, UBI_LAYOUT_VOLUME_EBS]
  · rfl
  · intro k hk
    unfold resolve_vol_lebs
    rw [if_neg (by omega), if_pos (by omega)]
    ring
  · intro v hv
    unfold resolve_vol_lebs
    rw [if_neg (by omega), if_neg (by omega)]
  · intro arg
    unfold vol_lebs_check
    by_cases hrej : resolve_vol_lebs (tot_lebs windowPebs) arg < 0 ∨
        tot_lebs windowPebs < resolve_vol_lebs (tot_lebs windowPebs) arg
    · rw [if_pos hrej]
      simp only [Option.isSome_none, Bool.false_eq_true, false_iff]
      omega
    · rw [if_neg hrej]
      simp only [Option.isSome_some, true_iff]
      omega
  · intro a seq wfail ibad imageSize volLebsArg src0 hubi hnone
    have hg : ubi_geometry a windowPebs imageSize volLebsArg =
        GeomResult.die "volume LEBs doesn't fit into allocated blocks" := by
      unfold ubi_geometry
      rw [hnone]
    unfold runWriterFull
    rw [if_pos hubi, hg]

theorem vol_lebs_resolution_witness :
    tot_lebs 30 = (30 : Int) - 2 ∧
    resolve_vol_lebs (tot_lebs 30) 0 = tot_lebs 30 - 20 ∧
    resolve_vol_lebs (tot_lebs 30) (-3) = tot_lebs 30 - 3 ∧
    resolve_vol_lebs (tot_lebs 30) 5 = 5 ∧
    ((vol_lebs_check (tot_lebs 30) 40).isSome ↔
      0 ≤ resolve_vol_lebs (tot_lebs 30) 40 ∧
        resolve_vol_lebs (tot_lebs 30) 40 ≤ tot_lebs 30) ∧
    runWriterFull uArgsW 0 wfailAll (fun _ => false) 30 0 40 ⟨none⟩ =
      ⟨GeomResult.die "volume LEBs doesn't fit into allocated blocks", [], []⟩ :=
  ⟨(vol_lebs_resolution 30).1,
   (vol_lebs_resolution 30).2.1,
   (vol_lebs_resolution 30).2.2.1 3 (by decide),
   (vol_lebs_resolution 30).2.2.2.1 5 (by decide),
   (vol_lebs_resolution 30).2.2.2.2.1 40,
   (vol_lebs_resolution 30).2.2.2.2.2 uArgsW 0 wfailAll (fun _ => false) 0 40 ⟨none⟩
     (by decide) (by decide)⟩

/-- **C10**: the usage check at the top of `main` lets a UBI-mode run
with no input data and no `--vol-name` proceed, yet the UBI geometry
phase unconditionally evaluates `strlen(args.vol_name)`, reaching it
with a null `vol_name`; the same missing `--vol-name` *with* input data
is rejected up front. -/
theorem ubi_without_volname_null_deref :
    usage_ok false false true none = true ∧
    runWriterFull nArgsW 0 wfailAll (fun _ => false) 30 0 0 ⟨none⟩ =
      ⟨GeomResult.nullDeref, [], []⟩ ∧
    usage_ok true false true none = false := by
  refine ⟨by decide, by decide, by decide⟩

/-! ### C8: skip_bad reaches the extraction phase only -/

/-- A PEB whose EC magic does not check out fails `read_headers`. -/
theorem read_headers_bad_magic {ps : Nat} {file : List Nat} {base : Nat}
    {ec : List Nat} (hr : readN file base 64 = some ec)
    (hm : decBe (slice ec 0 4) ≠ UBI_EC_HDR_MAGIC) :
    read_headers ps file base = none := by
  unfold read_headers
  rw [hr]
  dsimp only
  rw [if_pos hm]

/-- **C8** (counterexample): prepending one garbage PEB (all zeroes, so
its EC magic check fails) to a well-formed 3-PEB image kills the whole
run even with `skip_bad` set, because the discovery walk of
`read_ubi_info` never consults `skip_bad`; the same well-formed image
alone extracts fine. -/
theorem extractor_skip_bad_counterexample :
    read_headers wArgs.ebSize
      (List.replicate 22528 0 ++ imageBytes wArgs 7 [1, 2, 3] 3) 0 = none ∧
    run_extractor wArgs.ebSize [114] true
      (List.replicate 22528 0 ++ imageBytes wArgs 7 [1, 2, 3] 3) = none ∧
    (run_extractor wArgs.ebSize [114] true (imageBytes wArgs 7 [1, 2, 3] 3)).isSome
      = true := by
  have hilen : (imageBytes wArgs 7 [1, 2, 3] 3).length = 3 * wArgs.ebSize :=
    imageBytes_length (by decide) (by decide) (by decide)
  have hlenF : (List.replicate 22528 0 ++ imageBytes wArgs 7 [1, 2, 3] 3).length
      = 4 * wArgs.ebSize := by
    rw [List.length_append, List.length_replicate, hilen]
    decide
  have hr : readN (List.replicate 22528 0 ++ imageBytes wArgs 7 [1, 2, 3] 3) 0 64 =
      some (List.replicate 64 0) := by
    unfold readN
    rw [if_pos (by rw [hlenF]; decide)]
    rw [slice_append_left _ (by rw [List.length_replicate]; decide)]
    rw [slice_replicate 0 (by decide)]
  have hbad : read_headers wArgs.ebSize
      (List.replicate 22528 0 ++ imageBytes wArgs 7 [1, 2, 3] 3) 0 = none :=
    read_headers_bad_magic hr (by decide)
  refine ⟨hbad, ?_, ?_⟩
  · unfold run_extractor
    rw [if_neg (by rw [hlenF]; decide)]
    have hdiv : (List.replicate 22528 0 ++ imageBytes wArgs 7 [1, 2, 3] 3).length /
        wArgs.ebSize = 3 + 1 := by
      rw [hlenF]
      decide
    rw [hdiv, find_layout_fail hbad]
  · have h := @run_extractor_image wArgs 7 [1, 2, 3] 3 (by decide) (by decide)
      (by decide) (by decide) (by decide) (by decide) (by decide) (by decide)
      (by decide) true
    show (run_extractor wArgs.ebSize (wArgs.volName.getD []) true
      (imageBytes wArgs 7 [1, 2, 3] 3)).isSome = true
    rw [h]
    rfl

/-- **C8** (amended): a header/CRC validation failure is
skipped-or-fatal by `skip_bad` only in the extraction phase
(`extract_volume_data`); in the discovery walk (`read_ubi_info`) it is
fatal regardless — the walk takes no notice of `skip_bad`. -/
theorem extractor_skip_bad_amended (pebSize dataSize volIndex : Nat)
    (file : List Nat) (f base : Nat) (out : Nat → Nat)
    (h : read_headers pebSize file base = none) :
    extract_go pebSize dataSize volIndex true file (f + 1) base out =
      extract_go pebSize dataSize volIndex true file f (base + pebSize) out ∧
    extract_go pebSize dataSize volIndex false file (f + 1) base out = none ∧
    find_layout pebSize file (f + 1) base = none := by
  refine ⟨?_, ?_, find_layout_fail h⟩
  · rw [extract_go_bad h]
    rfl
  · rw [extract_go_bad h]
    rfl

theorem extractor_skip_bad_amended_witness :
    extract_go 4 1 0 true [] 1 0 (fun _ => 0) =
      extract_go 4 1 0 true [] 0 4 (fun _ => 0) ∧
    extract_go 4 1 0 false [] 1 0 (fun _ => 0) = none ∧
    find_layout 4 [] 1 0 = none :=
  extractor_skip_bad_amended 4 1 0 [] 0 0 (fun _ => 0) (by rfl)

/-- **C9** (counterexample): a 0-byte payload from a regular file (not
stdin) in UBI mode: generation of the first volume-data PEB
(`blk_no = 2`) errors out (`data_read` hits an EOF it only tolerates on
stdin), so that PEB is never written, with or without headers — while
the two layout PEBs still generate. -/
theorem ubi_empty_payload_counterexample :
    eb_gen_data wArgs 7 2 ⟨some []⟩ UNLIMITED = none ∧
    (eb_gen_data wArgs 7 0 ⟨some []⟩ UNLIMITED).isSome = true ∧
    (eb_gen_data wArgs 7 1 ⟨some []⟩ UNLIMITED).isSome = true := by
  refine ⟨?_, by decide, by decide⟩
  exact eb_gen_data_data_err (by decide) (by decide) (by decide) (by rfl)

/-- **C9** (amended): for a 0-byte payload in UBI mode the layout
volume is still written; when the payload comes from stdin without
`--length`, every volume-data PEB is generated with only its EC and VID
headers (`data_len = data_offset`); but when it comes from a regular
file, generation of a volume-data PEB fails instead (`data_read` treats
the EOF as an error), so those PEBs are never written at all. -/
theorem ubi_empty_payload_amended (a : GenArgs) (seq blk : Nat)
    (hu : a.ubi = true) (h64 : 64 ≤ a.minIo)
    (hfit : a.minIo * 2 + 22016 ≤ a.ebSize)
    (hname : (a.volName.getD []).length ≤ 128) :
    (blk < 2 → eb_gen_data a seq blk ⟨some []⟩ UNLIMITED =
      some (layoutBlock a seq blk, a.minIo * 2 + 22016, ⟨some []⟩, UNLIMITED)) ∧
    (2 ≤ blk → blk < a.volLebs + 2 → a.stdIn = true → a.lengthArg = 0 →
      eb_gen_data a seq blk ⟨some []⟩ UNLIMITED =
        some (dataBlock a seq blk [], a.minIo * 2, ⟨some []⟩, UNLIMITED)) ∧
    (2 ≤ blk → blk < a.volLebs + 2 → a.stdIn = false →
      eb_gen_data a seq blk ⟨some []⟩ UNLIMITED = none) := by
  have hU : UNLIMITED = 18446744073709551615 := rfl
  have hmin : min UNLIMITED (a.ebSize - a.minIo * 2) ≠ 0 := by
    omega
  refine ⟨fun hblk => eb_gen_data_layout hu h64 hfit hblk hname, ?_, ?_⟩
  · intro h2 hlt hstd hlen0
    have hread : data_read a ⟨some []⟩ (min UNLIMITED (a.ebSize - a.minIo * 2)) =
        some ([], ⟨some []⟩) := by
      rw [data_read_eq_of_some rfl]
      rw [if_neg hmin, if_neg (by simp; omega), if_pos ⟨hstd, hlen0⟩]
    exact eb_gen_data_data hu h64 hfit h2 hlt hread
  · intro h2 hlt hstd
    have hread : data_read a ⟨some []⟩ (min UNLIMITED (a.ebSize - a.minIo * 2)) =
        none := by
      rw [data_read_eq_of_some rfl]
      rw [if_neg hmin, if_neg (by simp; omega), if_neg (by rw [hstd]; simp)]
    exact eb_gen_data_data_err hu h2 hlt hread

theorem ubi_empty_payload_amended_witness :
    eb_gen_data sArgsW 7 2 ⟨some []⟩ UNLIMITED =
      some (dataBlock sArgsW 7 2 [], sArgsW.minIo * 2, ⟨some []⟩, UNLIMITED) ∧
    eb_gen_data wArgs 7 2 ⟨some []⟩ UNLIMITED = none ∧
    eb_gen_data wArgs 7 0 ⟨some []⟩ UNLIMITED =
      some (layoutBlock wArgs 7 0, wArgs.minIo * 2 + 22016, ⟨some []⟩, UNLIMITED) :=
  ⟨(ubi_empty_payload_amended sArgsW 7 2 (by decide) (by decide) (by decide)
      (by decide)).2.1 (by decide) (by decide) (by decide) (by decide),
   (ubi_empty_payload_amended wArgs 7 2 (by decide) (by decide) (by decide)
      (by decide)).2.2 (by decide) (by decide) (by decide),
   (ubi_empty_payload_amended wArgs 7 0 (by decide) (by decide) (by decide)
      (by decide)).1 (by decide)⟩

end MtdUtils
